import Mathlib

/-!
# BoltQ job-dispatch core: shallow embedding and verification

This file embeds the queue, error-classifier and workflow components of the
BoltQ repository (Go) in Lean 4 and settles a list of claims about them.

Sources embedded here:
* `internal/queue/queue.go` — priority constants and shared types.
* `internal/queue/redis_queue.go` — the Redis-backed task queue
  (`Publish`, `PublishDelayed`, `ProcessDelayedTasks`, `Consume`,
  `MoveToDeadLetterQueue`, `RetryTask`, `UpdateStatus`) and the second
  variant's `ConsumeJob`.
* `internal/worker/error_handler.go` — `categorizeError`, `getMaxAttempts`,
  `HandleJobError`, `retryWithSystemErrorBackoff`.
* `internal/job/workflow.go` — `Workflow`, `WorkflowStep`, `GetReadySteps`,
  `UpdateStepStatus`, `skipDependentSteps`.
* `internal/job/workflow_manager.go` — `SaveWorkflow`.
* `internal/api/handler.go` — `CreateWorkflowHandler` (validation path).
* `internal/worker/pool.go` — `processNextWorkflow`.

Modelling conventions:
* Wall-clock times are `Int` seconds (Go `time.Time` is only ever compared
  and stored via `Unix()` seconds in the embedded code paths); the current
  time is passed explicitly where Go calls `time.Now()`.
* The Redis store is a record of the keys the embedded operations touch:
  lists keyed by name (`LPush` prepends, `RPop` takes from the end),
  the `delayed_tasks` sorted set as a list of member/score pairs, the
  `task:{id}` status records as an association list, and the dead-letter list.
* JSON (de)serialization is modelled as the identity on the typed values:
  a list member *is* the task value that was serialized into it.  The
  embedded code never depends on the concrete byte encoding.
* Go `int` arithmetic is 64-bit two's complement; where an overflow could
  matter (the `1 << attempts` backoff) the shift is embedded with explicit
  wrapping (`goShiftLeftOne`).
* Nondeterministic fresh UUIDs are passed in as explicit arguments.
-/

namespace BoltQ

/-! ## Task model (`internal/queue/redis_queue.go`, first variant) -/

/-- The `Task` from `internal/queue/redis_queue.go`.  The opaque
`map[string]interface{}` payload is modelled as an association list of
strings; none of the embedded code inspects payload values. -/
structure Task where
  id : String
  taskType : String
  data : List (String × String)
  priority : Nat
  createdAt : Int
  scheduledAt : Int
  status : String
  attempts : Nat
  lastError : String
  deriving DecidableEq, Repr

/-- Priority constants from `internal/queue/queue.go`:
`PriorityLow = 0`, `PriorityNormal = 1`, `PriorityHigh = 2`. -/
def PriorityLow : Nat := 0

/-- The `PriorityNormal = 1` (`internal/queue/queue.go`). -/
def PriorityNormal : Nat := 1

/-- The `PriorityHigh = 2` (`internal/queue/queue.go`). -/
def PriorityHigh : Nat := 2

/-- The `getQueueName` from `redis_queue.go`:
`fmt.Sprintf("%s:%d", TaskQueuePrefix, priority)` with
`TaskQueuePrefix = "task_queue"`. -/
def getQueueName (priority : Nat) : String :=
  "task_queue:" ++ toString priority

/-- The Redis keys touched by the embedded queue operations. -/
structure RedisState where
  /-- Redis lists, keyed by list name.  `LPush` prepends to the head of the
  stored list; `RPop` removes from the tail, so a stored list reads
  newest-first, exactly as a Redis list does. -/
  lists : List (String × List Task)
  /-- The `delayed_tasks` sorted set: member/score pairs. -/
  delayed : List (Task × Int)
  /-- The `task:{jobId}` status records. -/
  statusRecords : List (String × Task)
  /-- The `dead_letter_queue` list (head = most recently pushed). -/
  deadLetter : List Task
  deriving DecidableEq, Repr

/-- Read a Redis list (missing key = empty list). -/
def RedisState.getList (s : RedisState) (key : String) : List Task :=
  (s.lists.lookup key).getD []

/-- Write a Redis list at a key (used by the LPush/RPop embeddings). -/
def RedisState.setList (s : RedisState) (key : String) (l : List Task) :
    RedisState :=
  if (s.lists.lookup key).isSome then
    { s with lists := s.lists.map (fun kv => if kv.1 = key then (key, l) else kv) }
  else
    { s with lists := s.lists ++ [(key, l)] }

/-- The `LPUSH key member`: prepend to the head of the list. -/
def RedisState.lpush (s : RedisState) (key : String) (t : Task) : RedisState :=
  s.setList key (t :: s.getList key)

/-- The `RPOP key`: remove and return the tail element, `none` when empty. -/
def RedisState.rpop (s : RedisState) (key : String) :
    Option Task × RedisState :=
  let l := s.getList key
  match l.getLast? with
  | none => (none, s)
  | some t => (some t, s.setList key (l.dropLast))

/-- The `UpdateStatus` from `redis_queue.go`: store the serialized task under
key `task:{id}` (the 24 h TTL is not modelled). -/
def RedisState.updateStatus (s : RedisState) (t : Task) : RedisState :=
  let key := "task:" ++ t.id
  if (s.statusRecords.lookup key).isSome then
    { s with statusRecords :=
        s.statusRecords.map (fun kv => if kv.1 = key then (key, t) else kv) }
  else
    { s with statusRecords := s.statusRecords ++ [(key, t)] }

/-- The `publishToQueue` from `redis_queue.go`: serialize and `LPUSH` onto the
named list. -/
def publishToQueue (s : RedisState) (t : Task) (queueName : String) :
    RedisState :=
  s.lpush queueName t

/-- The `Publish` from `redis_queue.go`: stamp `CreatedAt`, set status
`"pending"`, push onto `lane(priority)`. -/
def publish (s : RedisState) (t : Task) (now : Int) : RedisState :=
  let t := { t with createdAt := now, status := "pending" }
  publishToQueue s t (getQueueName t.priority)

/-- The `PublishDelayed` from `redis_queue.go`: stamp `CreatedAt`, set
`ScheduledAt = now + delaySeconds`, set status `"scheduled"`, and `ZADD` the
serialized task into `delayed_tasks` with score `ScheduledAt.Unix()`. -/
def publishDelayed (s : RedisState) (t : Task) (delaySeconds : Int)
    (now : Int) : RedisState :=
  let t := { t with
    createdAt := now
    scheduledAt := now + delaySeconds
    status := "scheduled" }
  let score := t.scheduledAt
  { s with delayed := s.delayed ++ [(t, score)] }

/-- One iteration of the `ProcessDelayedTasks` loop body: set the member's
status to `"pending"`, publish it to `lane(priority)`, and `ZREM` the
original member from the delayed set. -/
def promoteOne (s : RedisState) (member : Task × Int) : RedisState :=
  let task := { member.1 with status := "pending" }
  let s := publishToQueue s task (getQueueName task.priority)
  { s with delayed := s.delayed.filter (fun m => m ≠ member) }

/-- Stable insertion by ascending score: `ZRANGEBYSCORE` returns members in
score order.  Used to embed `ProcessDelayedTasks` from `redis_queue.go`:
`ZRANGEBYSCORE delayed_tasks 0 now`, then for each member set status
`"pending"`, publish to its priority lane and remove it from the set,
returning the number of promoted tasks.  Note: the Go code performs **no**
check of the job's stored status — every due member is promoted. -/
def insertByScore (m : Task × Int) : List (Task × Int) → List (Task × Int)
  | [] => [m]
  | x :: xs => if m.2 < x.2 then m :: x :: xs else x :: insertByScore m xs

/-- Score-ascending view of a list of members (stable). -/
def sortByScore (l : List (Task × Int)) : List (Task × Int) :=
  l.foldr insertByScore []

/-- The `ProcessDelayedTasks` body: collect the due members, promote each one,
count them. -/
def processDelayedTasks (s : RedisState) (now : Int) : Nat × RedisState :=
  let due := sortByScore (s.delayed.filter (fun m => 0 ≤ m.2 ∧ m.2 ≤ now))
  (due.length, due.foldl promoteOne s)

/-- The iteration space of Go's `for p := start; p <= stop; p++`:
the integers `start, start+1, …, stop`, empty when `start > stop`. -/
def goForUpRange (start stop : Nat) : List Nat :=
  if start ≤ stop then List.range' start (stop + 1 - start) else []

/-- One iteration of the `Consume` loop: `RPOP` from `lane(p)`; on success,
set status `"running"` and store the status record. -/
def consumeFromLane (s : RedisState) (p : Nat) : Option Task × RedisState :=
  match s.rpop (getQueueName p) with
  | (none, _) => (none, s)
  | (some task, s) =>
      let task := { task with status := "running" }
      (some task, s.updateStatus task)

/-- The `Consume` from `redis_queue.go` (first variant): iterate
`for priority := PriorityHigh; priority <= PriorityLow; priority++`,
returning the first popped task (status set to `"running"`), or no task when
the loop finds nothing.  With `PriorityHigh = 2` and `PriorityLow = 0`
(`queue.go`) the iteration space is empty. -/
def consume (s : RedisState) : Option Task × RedisState :=
  let rec go : List Nat → Option Task × RedisState
    | [] => (none, s)
    | p :: ps =>
        match consumeFromLane s p with
        | (none, _) => go ps
        | (some task, s') => (some task, s')
  go (goForUpRange PriorityHigh PriorityLow)

/-- The `MoveToDeadLetterQueue` from `redis_queue.go`: set status `"failed"`,
record the error, `LPUSH` onto `dead_letter_queue`. -/
def moveToDeadLetterQueue (s : RedisState) (t : Task) (errMsg : String) :
    Task × RedisState :=
  let t := { t with status := "failed", lastError := errMsg }
  (t, { s with deadLetter := t :: s.deadLetter })

/-- Go's `1 << uint(n)` on a 64-bit `int`: two's-complement wrap for
`n < 64`, `0` for `n ≥ 64`. -/
def goShiftLeftOne (n : Nat) : Int :=
  if n < 64 then ((2 ^ n + 2 ^ 63 : Int) % 2 ^ 64) - 2 ^ 63 else 0

/-- The `RetryTask` from `redis_queue.go`: increment attempts, set status
`"retrying"`, record the error, compute `1 << attempts` capped at 300
seconds, and delegate to `PublishDelayed`. -/
def retryTask (s : RedisState) (t : Task) (errMsg : String) (now : Int) :
    Task × Int × RedisState :=
  let t := { t with
    attempts := t.attempts + 1
    status := "retrying"
    lastError := errMsg }
  let backoffSeconds := goShiftLeftOne t.attempts
  let backoffSeconds := if backoffSeconds > 300 then 300 else backoffSeconds
  (t, backoffSeconds, publishDelayed s t backoffSeconds now)

end BoltQ

namespace BoltQ

/-! ## Error classifier (`internal/worker/error_handler.go`) -/

/-- A Go `error` value as observed by `categorizeError`: its message plus
the outcomes of the `errors.As`/`errors.Is` checks the classifier makes.
`isNetTimeout` is `errors.As(err, &netErr) && netErr.Timeout()`; the three
`is*` flags are `errors.Is(err, syscall.E…)`. -/
structure GoError where
  msg : String
  isNetTimeout : Bool
  isConnRefused : Bool
  isConnReset : Bool
  isTimedOut : Bool
  deriving DecidableEq, Repr

/-- The `strings.Contains(s, sub)`: `sub` occurs as a contiguous substring. -/
def charsLead : List Char → List Char → Bool
  | [], _ => true
  | _ :: _, [] => false
  | c :: cs, d :: ds => c == d && charsLead cs ds

/-- Helper for `strContains`: does `needle` occur in `hay`? -/
def charsContain (hay needle : List Char) : Bool :=
  charsLead needle hay ||
    match hay with
    | [] => false
    | _ :: t => charsContain t needle

/-- The `strings.Contains` on strings. -/
def strContains (s sub : String) : Bool :=
  charsContain s.data sub.data

/-- The `ErrorCategory` from `error_handler.go`. -/
inductive ErrorCategory where
  | transientError
  | dataError
  | systemError
  | unknownError
  deriving DecidableEq, Repr

/-- The `categorizeError` from `error_handler.go`, with the source's check
order: net-timeout, syscall errnos, system substrings, data substrings,
default unknown.  Note the data substring is `"invalid parameter"`, not
`"invalid"`. -/
def categorizeError (e : GoError) : ErrorCategory :=
  if e.isNetTimeout then .transientError
  else if e.isConnRefused || e.isConnReset || e.isTimedOut then .systemError
  else if strContains e.msg "connection refused" ||
      strContains e.msg "network timeout" ||
      strContains e.msg "connection reset by peer" then .systemError
  else if strContains e.msg "validation failed" ||
      strContains e.msg "invalid parameter" ||
      strContains e.msg "not found" ||
      strContains e.msg "bad request" then .dataError
  else .unknownError

/-- The `getMaxAttempts` from `error_handler.go`. -/
def getMaxAttempts : ErrorCategory → Nat
  | .transientError => 5
  | .systemError => 10
  | .dataError => 0
  | .unknownError => 3

/-- The `retryWithSystemErrorBackoff` from `error_handler.go`: increment
attempts, set status `"retrying"`, record the error, linear backoff
`5 * attempts` capped at 120 seconds, delegate to `PublishDelayed`. -/
def retryWithSystemErrorBackoff (s : RedisState) (t : Task) (errMsg : String)
    (now : Int) : Task × Int × RedisState :=
  let t := { t with
    attempts := t.attempts + 1
    status := "retrying"
    lastError := errMsg }
  let backoffSeconds : Int := 5 * t.attempts
  let backoffSeconds := if backoffSeconds > 120 then 120 else backoffSeconds
  (t, backoffSeconds, publishDelayed s t backoffSeconds now)

/-- The observable decision taken by `HandleJobError`: either the task was
scheduled for a delayed retry (with the computed backoff in seconds), or it
was moved to the dead-letter queue. -/
inductive ErrorAction where
  | retried (delaySeconds : Int)
  | deadLettered
  deriving DecidableEq, Repr

/-- The `HandleJobError` from `error_handler.go`.  Branch structure as in the
source: transient retries while `attempts < getMaxAttempts(transient)` and
otherwise falls through to the data-error branch (dead letter); data errors
always dead-letter; system errors use the linear backoff while
`attempts < getMaxAttempts(system)`; unknown errors use the exponential
backoff while `attempts < getMaxAttempts(unknown)`.  Returns the final
state and the decision taken. -/
def handleJobError (s : RedisState) (t : Task) (e : GoError) (now : Int) :
    RedisState × ErrorAction :=
  match categorizeError e with
  | .transientError =>
      if t.attempts < getMaxAttempts .transientError then
        let (_, delay, s') := retryTask s t e.msg now
        (s', .retried delay)
      else
        let (_, s') := moveToDeadLetterQueue s t e.msg
        (s', .deadLettered)
  | .dataError =>
      let (_, s') := moveToDeadLetterQueue s t e.msg
      (s', .deadLettered)
  | .systemError =>
      if t.attempts < getMaxAttempts .systemError then
        let (_, delay, s') := retryWithSystemErrorBackoff s t e.msg now
        (s', .retried delay)
      else
        let (_, s') := moveToDeadLetterQueue s t e.msg
        (s', .deadLettered)
  | .unknownError =>
      if t.attempts < getMaxAttempts .unknownError then
        let (_, delay, s') := retryTask s t e.msg now
        (s', .retried delay)
      else
        let (_, s') := moveToDeadLetterQueue s t e.msg
        (s', .deadLettered)

/-! ## `ConsumeJob` lane order (`redis_queue.go`, second variant)

The second queue variant waits with `BRPOP` on the key list
`[retry, critical, high, normal, low]`; Redis serves the first non-empty
key in argument order.  Only the lane order is needed by the claims, so the
embedding records the waited-on key list and the selection rule. -/

/-- The `BRPOP` key list built by `ConsumeJob`: the retry queue followed by
the pending lanes for priorities `critical, high, normal, low`. -/
def consumeJobQueues : List String :=
  "boltq:queue:retry" ::
    ["critical", "high", "normal", "low"].map
      (fun p => "boltq:queue:pending:" ++ p)

/-- The `BRPOP`'s selection when data is already present: the first key of
`keys` whose list is non-empty (then its tail element is served). -/
def brpopSelect (s : RedisState) (keys : List String) : Option String :=
  keys.find? (fun k => !(s.getList k).isEmpty)

end BoltQ

namespace BoltQ

/-! ## Workflow model (`internal/job/workflow.go`) -/

/-- The `WorkflowStatus` from `workflow.go`. -/
inductive WorkflowStatus where
  | pending
  | running
  | completed
  | failed
  deriving DecidableEq, Repr

/-- The `WorkflowStepStatus` from `workflow.go`. -/
inductive StepStatus where
  | pending
  | running
  | completed
  | failed
  | skipped
  deriving DecidableEq, Repr

/-- The `WorkflowStep` from `workflow.go`.  Params and results are opaque
association lists, as for `Task.data`. -/
structure WorkflowStep where
  id : String
  jobType : String
  params : List (String × String)
  dependsOn : List String
  status : StepStatus
  errorMessage : String
  result : Option (List (String × String))
  startedAt : Option Int
  completedAt : Option Int
  deriving DecidableEq, Repr

/-- The `Workflow` from `workflow.go`.  The Go `Steps` map (step-id → step) is
an association list; `StepOrder` preserves insertion order. -/
structure Workflow where
  id : String
  name : String
  status : WorkflowStatus
  steps : List (String × WorkflowStep)
  stepOrder : List String
  createdAt : Int
  startedAt : Option Int
  finishedAt : Option Int
  deriving DecidableEq, Repr

/-- Map lookup `w.Steps[stepID]`. -/
def Workflow.findStep (w : Workflow) (stepID : String) : Option WorkflowStep :=
  w.steps.lookup stepID

/-- Map store `w.Steps[stepID] = step` for an existing key (the embedded
code only ever mutates steps obtained from the map). -/
def Workflow.setStep (w : Workflow) (stepID : String) (st : WorkflowStep) :
    Workflow :=
  { w with steps := w.steps.map (fun kv => if kv.1 = stepID then (stepID, st) else kv) }

/-- The `NewWorkflow` from `workflow.go` (the fresh UUID and `time.Now()` are
passed in). -/
def newWorkflow (wfId : String) (name : String) (now : Int) : Workflow :=
  { id := wfId
    name := name
    status := .pending
    steps := []
    stepOrder := []
    createdAt := now
    startedAt := none
    finishedAt := none }

/-- The `AddStep` from `workflow.go` (the fresh step UUID is passed in):
append a pending step to the map and to `StepOrder`. -/
def Workflow.addStep (w : Workflow) (stepID : String) (jobType : String)
    (params : List (String × String)) (dependsOn : List String) : Workflow :=
  let step : WorkflowStep :=
    { id := stepID
      jobType := jobType
      params := params
      dependsOn := dependsOn
      status := .pending
      errorMessage := ""
      result := none
      startedAt := none
      completedAt := none }
  { w with
    steps := w.steps ++ [(stepID, step)]
    stepOrder := w.stepOrder ++ [stepID] }

/-- The dependency check of `GetReadySteps` (`workflow.go`): every
dependency exists in the map and is `completed`. -/
def stepIsReady (w : Workflow) (step : WorkflowStep) : Bool :=
  step.dependsOn.all fun depID =>
    match w.findStep depID with
    | some depStep => depStep.status = .completed
    | none => false

/-- The `StepOrder` scan of `GetReadySteps` from `workflow.go`: keep steps
whose status is `pending` and which pass the dependency check.  (A
`StepOrder` entry absent from the map would be a nil dereference in Go; the
embedding skips it, and the claims are stated for well-formed workflows
where that cannot arise.) -/
def getReadyAux (w : Workflow) : List String → List WorkflowStep
  | [] => []
  | stepID :: rest =>
      match w.findStep stepID with
      | none => getReadyAux w rest
      | some step =>
          if step.status ≠ .pending then getReadyAux w rest
          else if stepIsReady w step then step :: getReadyAux w rest
          else getReadyAux w rest

def getReadySteps (w : Workflow) : List WorkflowStep :=
  getReadyAux w w.stepOrder

/-- The skip message written by `skipDependentSteps`:
`fmt.Sprintf("Skipped because dependency %s failed", failedStepID)`. -/
def skipMsg (failedStepID : String) : String :=
  "Skipped because dependency " ++ failedStepID ++ " failed"

/-- The record written for a skipped step: status `skipped` and the
message naming the failed dependency. -/
def skipRecord (step : WorkflowStep) (failedStepID : String) : WorkflowStep :=
  { step with status := .skipped, errorMessage := skipMsg failedStepID }

/-- The `StepOrder` scan of `skipDependentSteps` (`workflow.go`),
parameterized by the recursive call (`cascade`): each pending step whose
`DependsOn` contains `failedStepID` is marked `skipped` with
`skipMsg failedStepID`, and the cascade recurses on the newly skipped step
before the scan continues. -/
def skipScan (cascade : Workflow → String → Workflow) :
    Workflow → String → List String → Workflow
  | w, _, [] => w
  | w, failedStepID, stepID :: rest =>
      match w.findStep stepID with
      | none => skipScan cascade w failedStepID rest
      | some step =>
          if step.status = .pending ∧ failedStepID ∈ step.dependsOn then
            let w₁ := w.setStep stepID (skipRecord step failedStepID)
            let w₂ := cascade w₁ stepID
            skipScan cascade w₂ failedStepID rest
          else skipScan cascade w failedStepID rest

/-- The `skipDependentSteps` from `workflow.go`, made terminating with an
explicit recursion-depth bound `fuel`.  In Go the recursion depth is
bounded by the number of steps: every recursive call is preceded by turning
one `pending` step `skipped`, so the depth can never exceed the number of
pending steps.  Calling with `fuel` larger than that number reproduces the
Go behaviour exactly; the `fuel = 0` base case is then dead code. -/
def skipDepsFuel : Nat → Workflow → String → Workflow
  | 0, w, _ => w
  | fuel + 1, w, failedStepID =>
      skipScan (skipDepsFuel fuel) w failedStepID w.stepOrder

/-- The `skipDependentSteps` at its call site: the scan starts over the full
`StepOrder` with enough fuel for any cascade. -/
def skipDependentSteps (w : Workflow) (failedStepID : String) : Workflow :=
  skipDepsFuel (w.steps.length + 1) w failedStepID

/-- The step record as first mutated by the failed branch of
`UpdateStepStatus` (`step.Status = status`). -/
def failedMark (st : WorkflowStep) : WorkflowStep :=
  { st with status := .failed }

/-- The failed step's final record: status `failed`, `CompletedAt` stamped,
`ErrorMessage` recorded. -/
def failedRecord (st : WorkflowStep) (errMsg : String) (now : Int) :
    WorkflowStep :=
  { st with status := .failed, errorMessage := errMsg, completedAt := some now }

/-- The workflow state just before `skipDependentSteps` runs in the failed
branch of `UpdateStepStatus`: the step is stored failed, the workflow is
marked `failed` and `FinishedAt` stamped. -/
def failWorkflow (w : Workflow) (stepID : String) (st : WorkflowStep)
    (errMsg : String) (now : Int) : Workflow :=
  { (w.setStep stepID (failedMark st)).setStep stepID
      (failedRecord st errMsg now) with
    status := .failed, finishedAt := some now }

/-- The `UpdateStepStatus` from `workflow.go`: set the step's status and then
act on it — `running` stamps `StartedAt` and promotes a pending workflow to
`running`; `completed` stamps `CompletedAt`, stores the result and marks the
workflow `completed` when every step is `completed` or `skipped`; `failed`
stamps `CompletedAt`, records the message, marks the workflow `failed` and
skips all dependent steps.  Returns an error when the step is unknown. -/
def updateStepStatus (w : Workflow) (stepID : String) (status : StepStatus)
    (errorMsg : String) (result : Option (List (String × String)))
    (now : Int) : Except String Workflow :=
  match w.findStep stepID with
  | none => .error ("step " ++ stepID ++ " not found in workflow")
  | some step =>
      let step := { step with status := status }
      let w := w.setStep stepID step
      match status with
      | .running =>
          let step := { step with startedAt := some now }
          let w := w.setStep stepID step
          if w.status = .pending then
            .ok { w with status := .running, startedAt := some now }
          else
            .ok w
      | .completed =>
          let step := { step with completedAt := some now, result := result }
          let w := w.setStep stepID step
          let allComplete := w.steps.all
            (fun kv => kv.2.status = .completed ∨ kv.2.status = .skipped)
          if allComplete then
            .ok { w with status := .completed, finishedAt := some now }
          else
            .ok w
      | .failed =>
          let step := { step with completedAt := some now, errorMessage := errorMsg }
          let w := w.setStep stepID step
          let w := { w with status := .failed, finishedAt := some now }
          .ok (skipDependentSteps w stepID)
      | _ => .ok w

end BoltQ

namespace BoltQ

/-! ## Workflow persistence (`internal/job/workflow_manager.go`) and the
API handler (`internal/api/handler.go`) -/

/-- The Redis keys touched by the workflow manager: the `workflow:{id}`
records, the `workflow_status:{id}` records, and the `workflow_queue`
list (head = most recently pushed). -/
structure WorkflowStoreState where
  store : List (String × Workflow)
  statusStore : List (String × WorkflowStatus)
  queue : List String
  deriving DecidableEq, Repr

/-- Association-list store helper (set-or-insert at a key). -/
def assocSet {α : Type} : List (String × α) → String → α → List (String × α)
  | [], key, v => [(key, v)]
  | kv :: rest, key, v =>
      if kv.1 = key then (key, v) :: rest else kv :: assocSet rest key v

/-- The `SaveWorkflow` from `workflow_manager.go`: store the serialized
workflow under `workflow:{id}`, store the status record, and — only if the
workflow status is `pending` — `LPUSH` the workflow id onto
`workflow_queue`.  No validation of any kind is performed (in particular no
cycle check); the Go error paths are Redis/serialization failures only and
the embedding models the store as available. -/
def saveWorkflow (st : WorkflowStoreState) (w : Workflow) :
    WorkflowStoreState :=
  let st := { st with store := assocSet st.store w.id w }
  let st := { st with statusStore := assocSet st.statusStore w.id w.status }
  if w.status = .pending then
    { st with queue := w.id :: st.queue }
  else
    st

/-- The `WorkflowStepInput` from `workflow.go`: one step of a workflow-creation
request. -/
structure WorkflowStepInput where
  jobType : String
  params : List (String × String)
  dependsOn : List String
  deriving DecidableEq, Repr

/-- The decoded body of a workflow-creation request
(`CreateWorkflowHandler` in `handler.go`). -/
structure CreateWorkflowRequest where
  name : String
  steps : List WorkflowStepInput
  deriving DecidableEq, Repr

/-- The observable HTTP outcome of `CreateWorkflowHandler`: the status code
and, on success, the created workflow id. -/
structure HandlerResult where
  code : Nat
  workflowId : Option String
  deriving DecidableEq, Repr

/-- Build the workflow exactly as `CreateWorkflowHandler` does:
`NewWorkflow(name)` then `AddStep` for each request step, in order.  The
fresh UUIDs Go generates (`uuid.New()`) are supplied as `wfId` and `ids`
(one id per step, zipped positionally). -/
def buildWorkflow (req : CreateWorkflowRequest) (wfId : String)
    (ids : List String) (now : Int) : Workflow :=
  (req.steps.zip ids).foldl
    (fun w si => w.addStep si.2 si.1.jobType si.1.params si.1.dependsOn)
    (newWorkflow wfId req.name now)

/-- The `CreateWorkflowHandler` from `handler.go` (decoded-request path): reject
an empty name or an empty step list with HTTP 400; otherwise build the
workflow, save it, and answer HTTP 200 with the workflow id.  There is no
validation of step dependencies whatsoever — no cycle check and no check
that `depends_on` entries reference existing steps. -/
def createWorkflowHandler (req : CreateWorkflowRequest) (wfId : String)
    (ids : List String) (now : Int) (st : WorkflowStoreState) :
    HandlerResult × WorkflowStoreState :=
  if req.name = "" then
    ({ code := 400, workflowId := none }, st)
  else if req.steps = [] then
    ({ code := 400, workflowId := none }, st)
  else
    let w := buildWorkflow req wfId ids now
    let st := saveWorkflow st w
    ({ code := 200, workflowId := some w.id }, st)

/-! ## Workflow scheduler (`internal/worker/pool.go`, `processNextWorkflow`)

The embedding covers the body of `processNextWorkflow` after a workflow has
been popped from `workflow_queue`: promote a pending workflow to running,
compute the ready steps, and either finalize the workflow (no ready steps)
or emit one task per ready step and mark it running. -/

/-- The task `processNextWorkflow` builds for a ready step: id and type
from the step, the step params as payload plus the `workflow_id` and
`workflow_step_id` keys, priority `1` (normal), status `"pending"`. -/
def stepTask (w : Workflow) (step : WorkflowStep) (now : Int) : Task :=
  { id := step.id
    taskType := step.jobType
    data := step.params ++ [("workflow_id", w.id), ("workflow_step_id", step.id)]
    priority := 1
    createdAt := now
    scheduledAt := 0
    status := "pending"
    attempts := 0
    lastError := "" }

/-- The `processNextWorkflow` from `pool.go` on an already-popped workflow.
When there are no ready steps the finalization check runs:
`allComplete` is falsified **only** by a step in status `pending` and
`hasFailed` is set by a step in status `failed`; if `allComplete || hasFailed`
holds the workflow is finalized (`failed` when `hasFailed`, else
`completed`).  Otherwise every ready step is marked running (via
`UpdateStepStatus`) and a task is emitted for it.  Returns the updated
workflow and the emitted tasks. -/
def processNextWorkflow (w : Workflow) (now : Int) :
    Workflow × List Task :=
  let w :=
    if w.status = .pending then
      { w with status := .running, startedAt := some now }
    else w
  let readySteps := getReadySteps w
  if readySteps.isEmpty then
    let allComplete := w.steps.all (fun kv => kv.2.status ≠ .pending)
    let hasFailed := w.steps.any (fun kv => kv.2.status = .failed)
    if allComplete || hasFailed then
      let w := { w with
        finishedAt := some now
        status := if hasFailed then .failed else .completed }
      (w, [])
    else
      (w, [])
  else
    readySteps.foldl
      (fun (acc : Workflow × List Task) step =>
        let (w, tasks) := acc
        let task := stepTask w step now
        match updateStepStatus w step.id .running "" none now with
        | .error _ => (w, tasks)
        | .ok w' => (w', tasks ++ [task]))
      (w, [])

end BoltQ

namespace BoltQ

/-! ## Predicates used by the claim statements -/

/-- Number of `pending` steps of a workflow. -/
def pendingCount (w : Workflow) : Nat :=
  w.steps.countP (fun kv => decide (kv.2.status = .pending))

/-- The step map's keys are free of duplicates (a Go map can never hold two
entries for one key; `AddStep` keys steps by fresh UUIDs). -/
def KeysNodup (w : Workflow) : Prop :=
  (w.steps.map Prod.fst).Nodup

/-- Every step of the map is listed in `StepOrder` (maintained by
`AddStep`, which appends to both). -/
def OrderCovers (w : Workflow) : Prop :=
  ∀ t st, w.findStep t = some st → t ∈ w.stepOrder

/-- The step `x` does not have status `pending` in `w`. -/
def NotPendingStep (w : Workflow) (x : String) : Prop :=
  ∀ st, w.findStep x = some st → st.status ≠ .pending

/-- The `t` transitively depends on `x` through a chain of `pending` steps:
either `x` appears directly in `t`'s `depends_on`, or some `pending` step
`u` that transitively depends on `x` does.  This is exactly the set of
steps the `skipDependentSteps` cascade can reach. -/
inductive DepSkip (w : Workflow) (x : String) : String → Prop where
  | base (t : String) (st : WorkflowStep) :
      w.findStep t = some st → st.status = .pending → x ∈ st.dependsOn →
      DepSkip w x t
  | tail (t : String) (st : WorkflowStep) (u : String) :
      w.findStep t = some st → st.status = .pending → DepSkip w x u →
      u ∈ st.dependsOn → DepSkip w x t

/-- After the cascade, no `pending` step still lists `d` as a dependency
(the scan either found the step non-pending or skipped it). -/
def SafeAfter (r : Workflow) (d t : String) : Prop :=
  ∀ st, r.findStep t = some st → st.status = .pending → d ∉ st.dependsOn

/-- The `u` was `pending` in `a` and is `skipped` in `b`. -/
def NewlySkipped (a b : Workflow) (u : String) : Prop :=
  (∃ s₀, a.findStep u = some s₀ ∧ s₀.status = .pending) ∧
  (∃ s₁, b.findStep u = some s₁ ∧ s₁.status = .skipped)

/-- The one kind of step change the cascade makes: a `pending` step becomes
`skipped` with a message naming a direct dependency `d` that is either the
failed step `x` or a step skipped in the same cascade. -/
def Changed (a b : Workflow) (x t : String) : Prop :=
  ∃ st d, a.findStep t = some st ∧ st.status = .pending ∧
    b.findStep t = some (skipRecord st d) ∧
    d ∈ st.dependsOn ∧ (d = x ∨ NewlySkipped a b d)

/-- Every step is either untouched or `Changed` as above. -/
def StepEvol (a b : Workflow) (x : String) : Prop :=
  ∀ t, b.findStep t = a.findStep t ∨ Changed a b x t

/-- Status monotonicity of one map entry under the cascade (same key;
either untouched or `pending` → `skipped`). -/
def RMono (kv kv' : String × WorkflowStep) : Prop :=
  kv'.1 = kv.1 ∧ (kv' = kv ∨ (kv.2.status = .pending ∧ kv'.2.status = .skipped))

/-- Everything the cascade guarantees, relative to the workflow it was
called on: workflow-level fields untouched, entrywise status monotonicity,
the `StepEvol`/`Changed` shape of every step change, every change reaches
`x` through pending dependencies, every step of `StepOrder` was scanned
against `x`, and every step newly skipped by the call had its own
dependents scanned. -/
structure ScanSpec (a r : Workflow) (x : String) (l : List String) :
    Prop where
  order : r.stepOrder = a.stepOrder
  wstatus : r.status = a.status
  wid : r.id = a.id
  wname : r.name = a.name
  wcreated : r.createdAt = a.createdAt
  wstarted : r.startedAt = a.startedAt
  wfinished : r.finishedAt = a.finishedAt
  mono : List.Forall₂ RMono a.steps r.steps
  evol : StepEvol a r x
  sound : ∀ t, r.findStep t ≠ a.findStep t → DepSkip a x t
  scanned : ∀ t ∈ l, SafeAfter r x t
  cascade : ∀ u, NewlySkipped a r u → ∀ t ∈ a.stepOrder, SafeAfter r u t

/-- The `ScanSpec` over the whole `StepOrder`: what a full
`skipDependentSteps` call guarantees. -/
def CascadeSpec (a r : Workflow) (x : String) : Prop :=
  ScanSpec a r x a.stepOrder

/-- Direct dependency edge of a workflow's step graph. -/
def DependsDirect (w : Workflow) (a b : String) : Prop :=
  ∃ st, w.findStep a = some st ∧ b ∈ st.dependsOn

/-- The workflow's dependency graph contains a cycle. -/
def CyclicDeps (w : Workflow) : Prop :=
  ∃ a, Relation.TransGen (DependsDirect w) a a

/-! ## Concrete fixtures used by the counterexamples and witnesses -/

/-- A high-priority task (`priority = PriorityHigh = 2`). -/
def highTask : Task :=
  { id := "h1", taskType := "echo", data := [], priority := 2, createdAt := 0,
    scheduledAt := 0, status := "pending", attempts := 0, lastError := "" }

/-- A normal-priority task. -/
def normalTask : Task :=
  { highTask with id := "n1", priority := 1 }

/-- A store with one task in the high lane and one in the normal lane. -/
def twoLaneState : RedisState :=
  { lists := [(getQueueName 2, [highTask]), (getQueueName 1, [normalTask])],
    delayed := [], statusRecords := [], deadLetter := [] }

/-- An empty store. -/
def emptyState : RedisState :=
  { lists := [], delayed := [], statusRecords := [], deadLetter := [] }

/-- A task whose serialized member in the delayed set carries status
`"cancelled"` (as after `CancelJobHandler` if cancellation reached the
member), due at time 100. -/
def cancelledTask : Task :=
  { highTask with
    id := "c1"
    priority := 1
    status := "cancelled"
    scheduledAt := 100 }

/-- Delayed set holding only the cancelled task, due at score 100. -/
def cancelledDelayedState : RedisState :=
  { lists := [], delayed := [(cancelledTask, 100)],
    statusRecords := [("task:c1", cancelledTask)], deadLetter := [] }

/-- A network-timeout handler error (`net.Error` with `Timeout() = true`). -/
def timeoutErr : GoError :=
  { msg := "connection timeout", isNetTimeout := true, isConnRefused := false,
    isConnReset := false, isTimedOut := false }

/-- A handler error containing `"invalid"` but not `"invalid parameter"`. -/
def invalidValueErr : GoError :=
  { msg := "invalid value", isNetTimeout := false, isConnRefused := false,
    isConnReset := false, isTimedOut := false }

/-- The validation error of the spec's dead-letter scenario. -/
def validationErr : GoError :=
  { invalidValueErr with msg := "validation failed: missing recipient" }

/-- A system error matched by the `"connection refused"` substring. -/
def connRefusedErr : GoError :=
  { invalidValueErr with msg := "connection refused" }

/-- A fresh pending workflow step with the given id and dependencies. -/
def mkStep (i : String) (deps : List String) : WorkflowStep :=
  { id := i, jobType := "t", params := [], dependsOn := deps,
    status := .pending, errorMessage := "", result := none,
    startedAt := none, completedAt := none }

/-- Chain workflow: `b` depends on `a`, `c` depends on `b`. -/
def chainWorkflow : Workflow :=
  { id := "w", name := "w", status := .running,
    steps := [("a", mkStep "a" []), ("b", mkStep "b" ["a"]),
      ("c", mkStep "c" ["b"])],
    stepOrder := ["a", "b", "c"], createdAt := 0, startedAt := none,
    finishedAt := none }

/-- A workflow whose only step is `running`. -/
def runningStepWorkflow : Workflow :=
  { id := "w2", name := "w2", status := .running,
    steps := [("a", { mkStep "a" [] with status := .running })],
    stepOrder := ["a"], createdAt := 0, startedAt := none, finishedAt := none }

/-- A workflow with a step `b` whose `depends_on` names the missing id
`"ghost"` alongside the existing step `a`. -/
def danglingDepWorkflow : Workflow :=
  { id := "w3", name := "w3", status := .running,
    steps := [("a", mkStep "a" []), ("b", mkStep "b" ["a", "ghost"])],
    stepOrder := ["a", "b"], createdAt := 0, startedAt := none,
    finishedAt := none }

/-- A two-step workflow-creation request whose `depends_on` entries name
the ids that will be generated for the other step — a dependency cycle. -/
def cyclicRequest : CreateWorkflowRequest :=
  { name := "cyc",
    steps := [{ jobType := "t", params := [], dependsOn := ["s2"] },
      { jobType := "t", params := [], dependsOn := ["s1"] }] }

/-- The workflow `CreateWorkflowHandler` builds from `cyclicRequest` with
generated step ids `s1`, `s2`. -/
def cyclicWorkflow : Workflow :=
  buildWorkflow cyclicRequest "wf1" ["s1", "s2"] 0

/-- An empty workflow store. -/
def emptyWorkflowStore : WorkflowStoreState :=
  { store := [], statusStore := [], queue := [] }

/-- A workflow-creation request with a step depending on the missing id
`"ghost"`. -/
def danglingRequest : CreateWorkflowRequest :=
  { name := "w3",
    steps := [{ jobType := "t", params := [], dependsOn := [] },
      { jobType := "t", params := [], dependsOn := ["a", "ghost"] }] }

end BoltQ

namespace BoltQ

/-! ## General lemmas about the embedded operations -/

theorem lookup_assocSet {α : Type} (l : List (String × α)) (key : String)
    (v : α) : (assocSet l key v).lookup key = some v := by
  induction l with
  | nil => simp [assocSet, List.lookup]
  | cons kv rest ih =>
      by_cases h : kv.1 = key
      · simp [assocSet, h, List.lookup]
      · have hb : (key == kv.1) = false := by
          simp only [beq_eq_false_iff_ne, ne_eq]
          exact fun hh => h hh.symm
        simp only [assocSet, if_neg h, List.lookup, hb]
        exact ih

theorem buildWorkflow_foldl_status (l : List (WorkflowStepInput × String))
    (w : Workflow) :
    (l.foldl (fun w si =>
      w.addStep si.2 si.1.jobType si.1.params si.1.dependsOn) w).status
      = w.status := by
  induction l generalizing w with
  | nil => rfl
  | cons si rest ih => exact ih _

theorem buildWorkflow_foldl_id (l : List (WorkflowStepInput × String))
    (w : Workflow) :
    (l.foldl (fun w si =>
      w.addStep si.2 si.1.jobType si.1.params si.1.dependsOn) w).id = w.id := by
  induction l generalizing w with
  | nil => rfl
  | cons si rest ih => exact ih _

theorem buildWorkflow_status (req : CreateWorkflowRequest) (wfId : String)
    (ids : List String) (now : Int) :
    (buildWorkflow req wfId ids now).status = .pending :=
  buildWorkflow_foldl_status _ _

theorem buildWorkflow_id (req : CreateWorkflowRequest) (wfId : String)
    (ids : List String) (now : Int) :
    (buildWorkflow req wfId ids now).id = wfId :=
  buildWorkflow_foldl_id _ _

/-- Whatever the `GetReadySteps` scan returns is a pending step passing the
dependency check. -/
theorem getReadyAux_ready {w : Workflow} {x : WorkflowStep} :
    ∀ {l : List String}, x ∈ getReadyAux w l →
    x.status = .pending ∧ stepIsReady w x = true := by
  intro l h
  induction l with
  | nil => simp [getReadyAux] at h
  | cons sid rest ih =>
      unfold getReadyAux at h
      revert h
      cases hf : w.findStep sid with
      | none => exact fun h => ih h
      | some step =>
          simp only
          by_cases hp : step.status ≠ StepStatus.pending
          · rw [if_pos hp]
            exact fun h => ih h
          · rw [if_neg hp]
            push_neg at hp
            by_cases hall : stepIsReady w step = true
            · rw [if_pos hall]
              intro h
              rcases List.mem_cons.mp h with h | h
              · subst h; exact ⟨hp, hall⟩
              · exact ih h
            · rw [if_neg hall]
              exact fun h => ih h

/-- Whatever `GetReadySteps` returns is a pending step whose recorded
dependencies all exist and are completed. -/
theorem getReadySteps_ready {w : Workflow} {x : WorkflowStep}
    (h : x ∈ getReadySteps w) :
    x.status = .pending ∧ stepIsReady w x = true :=
  getReadyAux_ready h

/-- The `1 << n` on a 64-bit Go int equals `2 ^ n` whenever `n ≤ 62`. -/
theorem goShiftLeftOne_eq_pow {n : Nat} (h : n ≤ 62) :
    goShiftLeftOne n = 2 ^ n := by
  unfold goShiftLeftOne
  rw [if_pos (by omega : n < 64)]
  have h1 : (2 : Int) ^ n ≤ 2 ^ 62 := by
    apply pow_le_pow_right₀ (by norm_num) h
  have h2 : (0 : Int) < 2 ^ n := by positivity
  have h3 : (2 : Int) ^ 62 + 2 ^ 63 < 2 ^ 64 := by norm_num
  rw [Int.emod_eq_of_lt (by positivity) (by omega)]
  omega

end BoltQ

namespace BoltQ

/-! ## Claim C1 -/

/-- C1: the claim says `Consume` serves lanes in strict priority order
`retry, high, normal, low`, so with a high-priority job queued it must
return that job.  In the code, `Consume`'s loop
`for priority := PriorityHigh; priority <= PriorityLow; priority++` never
executes because `queue.go` defines `PriorityHigh = 2 > 0 = PriorityLow`:
on a store holding a high-priority job and a normal-priority job, `Consume`
returns the no-task sentinel and leaves the store untouched. -/
theorem consume_returns_no_task_despite_available_jobs :
    twoLaneState.getList (getQueueName PriorityHigh) = [highTask] ∧
    twoLaneState.getList (getQueueName PriorityNormal) = [normalTask] ∧
    goForUpRange PriorityHigh PriorityLow = [] ∧
    consume twoLaneState = (none, twoLaneState) := by
  refine ⟨rfl, rfl, rfl, rfl⟩

/-! ## Claim C2 -/

/-- C2: the claim says the scheduler marks a workflow `completed` only when
every step is `completed` or `skipped` with at least one `completed`.  In
`processNextWorkflow` the `allComplete` flag is falsified only by a
`pending` step, so a workflow whose single step is still `running` (and
has zero completed steps) is finalized as `completed`. -/
theorem processNextWorkflow_completes_with_running_step :
    (runningStepWorkflow.findStep "a").map (fun st => st.status)
      = some .running ∧
    runningStepWorkflow.steps.countP
      (fun kv => decide (kv.2.status = .completed)) = 0 ∧
    (processNextWorkflow runningStepWorkflow 9).1.status = .completed := by
  refine ⟨rfl, rfl, rfl⟩

/-! ## Claim C3 -/

/-- C3: the claim says the promoter discards a due job whose stored status
is `cancelled`.  `ProcessDelayedTasks` performs no status check: a due
member with status `"cancelled"` (status record cancelled as well) is
enqueued into its priority lane with status reset to `"pending"` and
removed from the delayed set, and is counted as promoted. -/
theorem processDelayedTasks_enqueues_cancelled_job :
    cancelledTask.status = "cancelled" ∧
    (cancelledDelayedState.statusRecords.lookup "task:c1").map
      (fun t => t.status) = some "cancelled" ∧
    processDelayedTasks cancelledDelayedState 150 =
      (1,
        { lists := [(getQueueName 1, [{ cancelledTask with status := "pending" }])],
          delayed := [],
          statusRecords := [("task:c1", cancelledTask)],
          deadLetter := [] }) := by
  refine ⟨rfl, rfl, rfl⟩

/-! ## Claim C8 -/

/-- C8 counterexample: the claim says `PublishDelayed` stores the job with
status `pending`; the code stores it with status `"scheduled"`. -/
theorem publishDelayed_status_not_pending :
    (publishDelayed emptyState highTask 60 1000).delayed =
      [({ highTask with
          createdAt := 1000
          scheduledAt := 1060
          status := "scheduled" }, 1060)] ∧
    ({ highTask with
        createdAt := 1000
        scheduledAt := 1060
        status := "scheduled" } : Task).status ≠ "pending" := by
  exact ⟨rfl, by decide⟩

/-- C8 amended: `PublishDelayed(job, delay)` adds exactly one member to the
delayed sorted set — the job stamped with `created_at = now`,
`scheduled_at = now + delay` (the fire time) and status `"scheduled"` —
with score equal to the fire time in Unix seconds; no other key changes. -/
theorem publishDelayed_spec (s : RedisState) (t : Task) (d : Int)
    (now : Int) :
    (publishDelayed s t d now).delayed =
      s.delayed ++ [({ t with
        createdAt := now
        scheduledAt := now + d
        status := "scheduled" }, now + d)] ∧
    (publishDelayed s t d now).lists = s.lists ∧
    (publishDelayed s t d now).statusRecords = s.statusRecords ∧
    (publishDelayed s t d now).deadLetter = s.deadLetter :=
  ⟨rfl, rfl, rfl, rfl⟩

/-! ## Claim C9 (counterexample) -/

/-- C9 counterexample: in the chain `a ← b ← c`, after `a` is marked
failed, the transitively dependent step `c` is skipped with the message
naming its direct dependency `b`, not the failed step `a` — and the
message starts with a capital `Skipped`, unlike the claim's text. -/
theorem skip_message_names_direct_dependency :
    (updateStepStatus chainWorkflow "a" .failed "boom" none 5).map
      (fun w => (w.findStep "c").map (fun st => (st.status, st.errorMessage)))
      = .ok (some (.skipped, "Skipped because dependency b failed")) ∧
    "Skipped because dependency b failed"
      ≠ "skipped because dependency a failed" ∧
    "Skipped because dependency b failed"
      ≠ "Skipped because dependency a failed" := by
  refine ⟨rfl, by decide, by decide⟩

/-! ## Claim C10 (counterexample) -/

/-- C10 counterexample: the claim says a step whose `depends_on` names a
missing id stays `pending` forever.  Submission indeed succeeds and the
step is never ready, but when its other (existing) dependency `a` fails,
the cascade marks the step `skipped` — its status does change. -/
theorem dangling_dep_step_becomes_skipped :
    danglingDepWorkflow.findStep "ghost" = none ∧
    (danglingDepWorkflow.findStep "b").map (fun st => st.dependsOn)
      = some ["a", "ghost"] ∧
    (createWorkflowHandler danglingRequest "w3" ["a", "b"] 0
      emptyWorkflowStore).1.code = 200 ∧
    (updateStepStatus danglingDepWorkflow "a" .failed "boom" none 5).map
      (fun w => (w.findStep "b").map (fun st => st.status))
      = .ok (some .skipped) ∧
    StepStatus.skipped ≠ StepStatus.pending := by
  refine ⟨rfl, rfl, rfl, rfl, by decide⟩

end BoltQ

namespace BoltQ

/-! ## Claim C4 -/

/-- C4 counterexample: a submission whose two steps depend on each other —
a dependency cycle — is accepted by `CreateWorkflowHandler` with HTTP 200,
stored under `workflow:{id}`, and pushed onto `workflow_queue`.  No
cycle check exists anywhere in workflow creation. -/
theorem cyclic_workflow_accepted :
    CyclicDeps cyclicWorkflow ∧
    (createWorkflowHandler cyclicRequest "wf1" ["s1", "s2"] 0
      emptyWorkflowStore).1.code = 200 ∧
    (createWorkflowHandler cyclicRequest "wf1" ["s1", "s2"] 0
      emptyWorkflowStore).2.store.lookup "wf1" = some cyclicWorkflow ∧
    (createWorkflowHandler cyclicRequest "wf1" ["s1", "s2"] 0
      emptyWorkflowStore).2.queue = ["wf1"] := by
  refine ⟨⟨"s1", ?_⟩, rfl, rfl, rfl⟩
  have e12 : DependsDirect cyclicWorkflow "s1" "s2" :=
    ⟨mkStep "s1" ["s2"], by decide, by decide⟩
  have e21 : DependsDirect cyclicWorkflow "s2" "s1" :=
    ⟨mkStep "s2" ["s1"], by decide, by decide⟩
  exact Relation.TransGen.head e12 (Relation.TransGen.single e21)

/-- C4 amended: workflow creation performs no cycle detection.  Every
request with a non-empty name and at least one step — cyclic dependency
graphs included — is accepted with HTTP 200; the built workflow is stored
and its id is pushed onto the workflow queue. -/
theorem createWorkflowHandler_no_cycle_check (req : CreateWorkflowRequest)
    (wfId : String) (ids : List String) (now : Int)
    (st : WorkflowStoreState) (h1 : req.name ≠ "") (h2 : req.steps ≠ []) :
    (createWorkflowHandler req wfId ids now st).1.code = 200 ∧
    (createWorkflowHandler req wfId ids now st).2.store.lookup
        (buildWorkflow req wfId ids now).id
      = some (buildWorkflow req wfId ids now) ∧
    (buildWorkflow req wfId ids now).id ∈
      (createWorkflowHandler req wfId ids now st).2.queue := by
  have hs := buildWorkflow_status req wfId ids now
  simp only [createWorkflowHandler, saveWorkflow, if_neg h1, if_neg h2, hs,
    if_pos]
  exact ⟨trivial, lookup_assocSet _ _ _, List.mem_cons_self _ _⟩

/-- Witness for `createWorkflowHandler_no_cycle_check`, discharged at the
cyclic fixture request. -/
theorem createWorkflowHandler_no_cycle_check_witness :
    (createWorkflowHandler cyclicRequest "wf1" ["s1", "s2"] 0
      emptyWorkflowStore).1.code = 200 ∧
    (createWorkflowHandler cyclicRequest "wf1" ["s1", "s2"] 0
        emptyWorkflowStore).2.store.lookup
        (buildWorkflow cyclicRequest "wf1" ["s1", "s2"] 0).id
      = some (buildWorkflow cyclicRequest "wf1" ["s1", "s2"] 0) ∧
    (buildWorkflow cyclicRequest "wf1" ["s1", "s2"] 0).id ∈
      (createWorkflowHandler cyclicRequest "wf1" ["s1", "s2"] 0
        emptyWorkflowStore).2.queue :=
  createWorkflowHandler_no_cycle_check cyclicRequest "wf1" ["s1", "s2"] 0
    emptyWorkflowStore (by decide) (by decide)

end BoltQ

namespace BoltQ

/-! ## Claim C5 -/

/-- C5 counterexample: the claim dead-letters when
`attempts + 1 ≥ max-attempts(category)`.  For a transient error
(max-attempts 5) at `attempts = 4` the claim demands dead-letter
(`4 + 1 ≥ 5`), but `HandleJobError` retries (`4 < 5`) with a 32-second
delayed backoff. -/
theorem transient_error_retried_at_attempts_four :
    categorizeError timeoutErr = .transientError ∧
    getMaxAttempts .transientError ≤
      ({ highTask with attempts := 4 } : Task).attempts + 1 ∧
    (handleJobError emptyState { highTask with attempts := 4 } timeoutErr
      0).2 = .retried 32 := by
  refine ⟨rfl, by decide, ?_⟩
  rfl

/-- C5 amended: `HandleJobError` dead-letters exactly when
`attempts ≥ max-attempts(category)` — with max-attempts 5 for transient,
10 for system, 0 for data and 3 for unknown errors — and otherwise
schedules a delayed retry (one new member in the delayed set, due
`now + delay`). -/
theorem handleJobError_deadletter_iff (s : RedisState) (t : Task)
    (e : GoError) (now : Int) :
    ((handleJobError s t e now).2 = .deadLettered ↔
      getMaxAttempts (categorizeError e) ≤ t.attempts) ∧
    (t.attempts < getMaxAttempts (categorizeError e) →
      ∃ d t', (handleJobError s t e now).2 = .retried d ∧
        (handleJobError s t e now).1.delayed = s.delayed ++ [(t', now + d)]) := by
  cases hc : categorizeError e with
  | transientError =>
      by_cases hlt : t.attempts < getMaxAttempts .transientError
      · simp only [handleJobError, hc, if_pos hlt, retryTask, publishDelayed]
        constructor
        · constructor
          · intro h; exact absurd h (by simp)
          · intro h; exact absurd hlt (by omega)
        · intro _; exact ⟨_, _, rfl, rfl⟩
      · simp only [handleJobError, hc, if_neg hlt, moveToDeadLetterQueue]
        constructor
        · constructor
          · intro _; omega
          · intro _; trivial
        · intro h; exact absurd h hlt
  | dataError =>
      simp only [handleJobError, hc, moveToDeadLetterQueue, getMaxAttempts]
      constructor
      · constructor
        · intro _; omega
        · intro _; trivial
      · intro h; omega
  | systemError =>
      by_cases hlt : t.attempts < getMaxAttempts .systemError
      · simp only [handleJobError, hc, if_pos hlt,
          retryWithSystemErrorBackoff, publishDelayed]
        constructor
        · constructor
          · intro h; exact absurd h (by simp)
          · intro h; exact absurd hlt (by omega)
        · intro _; exact ⟨_, _, rfl, rfl⟩
      · simp only [handleJobError, hc, if_neg hlt, moveToDeadLetterQueue]
        constructor
        · constructor
          · intro _; omega
          · intro _; trivial
        · intro h; exact absurd h hlt
  | unknownError =>
      by_cases hlt : t.attempts < getMaxAttempts .unknownError
      · simp only [handleJobError, hc, if_pos hlt, retryTask, publishDelayed]
        constructor
        · constructor
          · intro h; exact absurd h (by simp)
          · intro h; exact absurd hlt (by omega)
        · intro _; exact ⟨_, _, rfl, rfl⟩
      · simp only [handleJobError, hc, if_neg hlt, moveToDeadLetterQueue]
        constructor
        · constructor
          · intro _; omega
          · intro _; trivial
        · intro h; exact absurd h hlt

/-- Witness for `handleJobError_deadletter_iff`: the retry branch at a
concrete transient error with `attempts = 4`. -/
theorem handleJobError_deadletter_iff_witness :
    ({ highTask with attempts := 4 } : Task).attempts <
      getMaxAttempts (categorizeError timeoutErr) ∧
    ∃ d t', (handleJobError emptyState { highTask with attempts := 4 }
        timeoutErr 0).2 = .retried d ∧
      (handleJobError emptyState { highTask with attempts := 4 }
        timeoutErr 0).1.delayed = emptyState.delayed ++ [(t', 0 + d)] :=
  ⟨by decide,
    (handleJobError_deadletter_iff emptyState
      { highTask with attempts := 4 } timeoutErr 0).2 (by decide)⟩

end BoltQ

namespace BoltQ

/-! ## Claim C6 -/

/-- C6 counterexample: the claim says any error message containing
`"invalid"` is a data error and is dead-lettered after a single attempt.
The classifier's substring is `"invalid parameter"`: the message
`"invalid value"` contains `"invalid"` yet is categorized `unknown` and
scheduled for a delayed retry (2 s backoff), not dead-lettered. -/
theorem invalid_value_error_is_retried_not_dead_lettered :
    strContains invalidValueErr.msg "invalid" = true ∧
    categorizeError invalidValueErr = .unknownError ∧
    (handleJobError emptyState highTask invalidValueErr 0).2 = .retried 2 ∧
    (handleJobError emptyState highTask invalidValueErr 0).1.deadLetter
      = [] := by
  refine ⟨by decide, rfl, rfl, rfl⟩

/-- C6 amended: for every handler error that fails the net-timeout and
system checks and whose message contains `"validation failed"`,
`"invalid parameter"`, `"not found"` or `"bad request"`, the classifier
categorizes it as a data error and the job is dead-lettered on the spot —
pushed onto `dead_letter_queue` with status `failed` and last-error set to
the message, with no retry scheduled — regardless of its attempt count. -/
theorem data_error_dead_lettered_single_attempt (e : GoError)
    (s : RedisState) (t : Task) (now : Int)
    (h1 : e.isNetTimeout = false) (h2 : e.isConnRefused = false)
    (h3 : e.isConnReset = false) (h4 : e.isTimedOut = false)
    (h5 : strContains e.msg "connection refused" = false)
    (h6 : strContains e.msg "network timeout" = false)
    (h7 : strContains e.msg "connection reset by peer" = false)
    (h8 : strContains e.msg "validation failed" = true ∨
      strContains e.msg "invalid parameter" = true ∨
      strContains e.msg "not found" = true ∨
      strContains e.msg "bad request" = true) :
    categorizeError e = .dataError ∧
    (handleJobError s t e now).2 = .deadLettered ∧
    (handleJobError s t e now).1.deadLetter =
      { t with status := "failed", lastError := e.msg } :: s.deadLetter ∧
    (handleJobError s t e now).1.delayed = s.delayed ∧
    (handleJobError s t e now).1.lists = s.lists := by
  have hcat : categorizeError e = .dataError := by
    unfold categorizeError
    rw [if_neg (by simp [h1]), if_neg (by simp [h2, h3, h4]),
      if_neg (by simp [h5, h6, h7]), if_pos (by
        rcases h8 with h | h | h | h <;> simp [h])]
  refine ⟨hcat, ?_, ?_, ?_, ?_⟩ <;>
    simp only [handleJobError, hcat, moveToDeadLetterQueue]

/-- Witness for `data_error_dead_lettered_single_attempt`: the spec's own
scenario, `"validation failed: missing recipient"`. -/
theorem data_error_dead_lettered_witness :
    categorizeError validationErr = .dataError ∧
    (handleJobError emptyState highTask validationErr 0).2 = .deadLettered ∧
    (handleJobError emptyState highTask validationErr 0).1.deadLetter =
      { highTask with status := "failed", lastError := validationErr.msg }
        :: emptyState.deadLetter ∧
    (handleJobError emptyState highTask validationErr 0).1.delayed
      = emptyState.delayed ∧
    (handleJobError emptyState highTask validationErr 0).1.lists
      = emptyState.lists :=
  data_error_dead_lettered_single_attempt validationErr emptyState highTask 0
    (by decide) (by decide) (by decide) (by decide) (by decide) (by decide)
    (by decide) (Or.inl (by decide))

/-! ## Claim C7 -/

/-- C7: for every job the classifier retries, the backoff before the next
attempt is `min(2^n, 300)` seconds for transient and unknown errors and
`min(5·n, 120)` seconds for system errors, where `n` is the attempt
counter after the failure incremented it (`n = attempts + 1`). -/
theorem retry_backoff_formula (s : RedisState) (t : Task) (e : GoError)
    (now : Int) :
    ((categorizeError e = .transientError ∨
        categorizeError e = .unknownError) →
      t.attempts < getMaxAttempts (categorizeError e) →
      (handleJobError s t e now).2 =
        .retried (min ((2 : Int) ^ (t.attempts + 1)) 300)) ∧
    (categorizeError e = .systemError →
      t.attempts < getMaxAttempts .systemError →
      (handleJobError s t e now).2 =
        .retried (min (5 * ((t.attempts : Int) + 1)) 120)) := by
  constructor
  · intro hcat hlt
    have hsh : goShiftLeftOne (t.attempts + 1) = 2 ^ (t.attempts + 1) := by
      apply goShiftLeftOne_eq_pow
      rcases hcat with h | h <;> rw [h] at hlt <;>
        simp [getMaxAttempts] at hlt <;> omega
    have hmin : (if goShiftLeftOne (t.attempts + 1) > 300 then (300 : Int)
        else goShiftLeftOne (t.attempts + 1))
        = min ((2 : Int) ^ (t.attempts + 1)) 300 := by
      rw [hsh]
      split <;> omega
    rcases hcat with h | h <;>
      · rw [h] at hlt
        simp only [handleJobError, h, if_pos hlt, retryTask]
        rw [hmin]
  · intro hcat hlt
    have hb : ¬((5 * ((t.attempts : Int) + 1)) > 120) := by
      simp [getMaxAttempts] at hlt
      omega
    have hmin : min (5 * ((t.attempts : Int) + 1)) 120
        = 5 * ((t.attempts : Int) + 1) := by omega
    simp only [handleJobError, hcat, if_pos hlt,
      retryWithSystemErrorBackoff]
    rw [if_neg (by push_cast; omega), hmin]
    push_cast
    ring_nf

/-- Witness for `retry_backoff_formula`: both branches at concrete inputs
(a transient error at `attempts = 0`, delay `min(2^1, 300) = 2`; a system
error at `attempts = 3`, delay `min(5·4, 120) = 20`). -/
theorem retry_backoff_formula_witness :
    ((categorizeError timeoutErr = .transientError ∨
        categorizeError timeoutErr = .unknownError) ∧
      highTask.attempts < getMaxAttempts (categorizeError timeoutErr) ∧
      (handleJobError emptyState highTask timeoutErr 0).2 =
        .retried (min ((2 : Int) ^ (highTask.attempts + 1)) 300)) ∧
    (categorizeError connRefusedErr = .systemError ∧
      ({ highTask with attempts := 3 } : Task).attempts <
        getMaxAttempts .systemError ∧
      (handleJobError emptyState { highTask with attempts := 3 }
          connRefusedErr 0).2 =
        .retried (min (5 * ((({ highTask with attempts := 3 } : Task).attempts
          : Int) + 1)) 120)) := by
  constructor
  · refine ⟨Or.inl (by decide), by decide, ?_⟩
    exact (retry_backoff_formula emptyState highTask timeoutErr 0).1
      (Or.inl (by decide)) (by decide)
  · refine ⟨by decide, by decide, ?_⟩
    exact (retry_backoff_formula emptyState { highTask with attempts := 3 }
      connRefusedErr 0).2 (by decide) (by decide)

end BoltQ

namespace BoltQ

/-! ## Claim C10 (amended) -/

/-- C10 amended: a workflow whose step names a missing dependency id is
accepted by `CreateWorkflowHandler` without error (only the name and the
non-empty step list are validated), and `GetReadySteps` never returns such
a step — in any workflow state — so the scheduler never starts it.  (Its
status is not `pending` forever, though: a failing existing dependency
skips it, see the counterexample.) -/
theorem dangling_dependency_never_ready (req : CreateWorkflowRequest)
    (wfId : String) (ids : List String) (now : Int)
    (st : WorkflowStoreState) (w : Workflow) (t : String)
    (stp : WorkflowStep) (d : String)
    (hname : req.name ≠ "") (hsteps : req.steps ≠ [])
    (_hfind : w.findStep t = some stp) (hdep : d ∈ stp.dependsOn)
    (hmissing : w.findStep d = none) :
    (createWorkflowHandler req wfId ids now st).1.code = 200 ∧
    stp ∉ getReadySteps w := by
  constructor
  · simp only [createWorkflowHandler, if_neg hname, if_neg hsteps]
  · intro hmem
    have h := (getReadySteps_ready hmem).2
    rw [stepIsReady, List.all_eq_true] at h
    have hd := h d hdep
    rw [hmissing] at hd
    simp at hd

/-- Witness for `dangling_dependency_never_ready`: the dangling fixture
(`b` depends on the missing id `"ghost"`). -/
theorem dangling_dependency_never_ready_witness :
    (createWorkflowHandler danglingRequest "w3" ["a", "b"] 0
      emptyWorkflowStore).1.code = 200 ∧
    mkStep "b" ["a", "ghost"] ∉ getReadySteps danglingDepWorkflow :=
  dangling_dependency_never_ready danglingRequest "w3" ["a", "b"] 0
    emptyWorkflowStore danglingDepWorkflow "b" (mkStep "b" ["a", "ghost"])
    "ghost" (by decide) (by decide) (by decide) (by decide) (by decide)

end BoltQ

namespace BoltQ

/-! ## Basic lemmas about the step map -/

theorem lookup_setEntry_self {α : Type} {l : List (String × α)}
    {i : String} {st : α} (v : α) (h : List.lookup i l = some st) :
    List.lookup i (l.map (fun kv => if kv.1 = i then (i, v) else kv))
      = some v := by
  induction l with
  | nil => simp [List.lookup] at h
  | cons kv rest ih =>
      obtain ⟨k1, v1⟩ := kv
      by_cases hk : k1 = i
      · subst hk
        simp only [List.map_cons, if_true, eq_self_iff_true]
        simp [List.lookup]
      · have hb : (i == k1) = false := by
          simp only [beq_eq_false_iff_ne, ne_eq]
          exact fun hh => hk hh.symm
        rw [List.lookup, hb] at h
        simp only [List.map_cons]
        rw [if_neg hk]
        simp only [List.lookup, hb]
        exact ih h

theorem lookup_setEntry_ne {α : Type} (l : List (String × α))
    {i j : String} (v : α) (h : j ≠ i) :
    List.lookup j (l.map (fun kv => if kv.1 = i then (i, v) else kv))
      = List.lookup j l := by
  induction l with
  | nil => simp
  | cons kv rest ih =>
      obtain ⟨k1, v1⟩ := kv
      by_cases hk : k1 = i
      · subst hk
        have hb : (j == k1) = false := by
          simp only [beq_eq_false_iff_ne, ne_eq]; exact h
        simp only [List.map_cons, if_true, eq_self_iff_true]
        simp only [List.lookup, hb]
        exact ih
      · simp only [List.map_cons]
        rw [if_neg hk]
        simp only [List.lookup]
        cases hjb : (j == k1) with
        | true => rfl
        | false => exact ih

theorem findStep_setStep_self {w : Workflow} {i : String}
    {st : WorkflowStep} (st' : WorkflowStep) (h : w.findStep i = some st) :
    (w.setStep i st').findStep i = some st' :=
  lookup_setEntry_self st' h

theorem findStep_setStep_ne {w : Workflow} {i j : String}
    (st' : WorkflowStep) (h : j ≠ i) :
    (w.setStep i st').findStep j = w.findStep j :=
  lookup_setEntry_ne w.steps st' h

theorem keys_setStep (w : Workflow) (i : String) (st' : WorkflowStep) :
    (w.setStep i st').steps.map Prod.fst = w.steps.map Prod.fst := by
  unfold Workflow.setStep
  simp only [List.map_map]
  apply List.map_congr_left
  intro kv _
  by_cases hk : kv.1 = i <;> simp [hk]

theorem lookup_mem {α : Type} {l : List (String × α)} {k : String} {v : α}
    (h : l.lookup k = some v) : (k, v) ∈ l := by
  induction l with
  | nil => simp [List.lookup] at h
  | cons kv rest ih =>
      rw [List.lookup] at h
      cases hb : (k == kv.1) with
      | true =>
          rw [hb] at h
          cases kv with
          | mk k' v' =>
              have : k = k' := by simpa [beq_iff_eq] using hb
              cases h
              subst this
              exact List.mem_cons_self _ _
      | false =>
          rw [hb] at h
          exact List.mem_cons_of_mem _ (ih h)

theorem pendingCount_pos {w : Workflow} {i : String} {st : WorkflowStep}
    (h : w.findStep i = some st) (hp : st.status = .pending) :
    0 < pendingCount w := by
  rw [pendingCount, List.countP_pos_iff]
  exact ⟨(i, st), lookup_mem h, by simp [hp]⟩

end BoltQ

namespace BoltQ

/-! ## Status-monotonicity lemmas -/

theorem rmono_refl (kv : String × WorkflowStep) : RMono kv kv :=
  ⟨rfl, Or.inl rfl⟩

theorem rmono_trans {a b c : String × WorkflowStep} (h1 : RMono a b)
    (h2 : RMono b c) : RMono a c := by
  obtain ⟨hk1, h1⟩ := h1
  obtain ⟨hk2, h2⟩ := h2
  refine ⟨hk2.trans hk1, ?_⟩
  rcases h1 with h1 | ⟨hp1, hs1⟩
  · rcases h2 with h2 | ⟨hp2, hs2⟩
    · exact Or.inl (h2.trans h1)
    · subst h1; exact Or.inr ⟨hp2, hs2⟩
  · rcases h2 with h2 | ⟨hp2, hs2⟩
    · subst h2; exact Or.inr ⟨hp1, hs1⟩
    · rw [hs1] at hp2; cases hp2

theorem forall₂_rmono_refl (l : List (String × WorkflowStep)) :
    List.Forall₂ RMono l l := by
  induction l with
  | nil => exact List.Forall₂.nil
  | cons kv rest ih => exact List.Forall₂.cons (rmono_refl kv) ih

theorem forall₂_rmono_trans {l₁ l₂ l₃ : List (String × WorkflowStep)}
    (h1 : List.Forall₂ RMono l₁ l₂) (h2 : List.Forall₂ RMono l₂ l₃) :
    List.Forall₂ RMono l₁ l₃ := by
  induction h1 generalizing l₃ with
  | nil => cases h2; exact List.Forall₂.nil
  | cons hab hrest ih =>
      cases h2 with
      | cons hbc hrest' =>
          exact List.Forall₂.cons (rmono_trans hab hbc) (ih hrest')

theorem countP_rmono {l₁ l₂ : List (String × WorkflowStep)}
    (h : List.Forall₂ RMono l₁ l₂) :
    l₂.countP (fun kv => decide (kv.2.status = .pending)) ≤
      l₁.countP (fun kv => decide (kv.2.status = .pending)) := by
  induction h with
  | nil => exact le_refl _
  | @cons a b l₁' l₂' hab hrest ih =>
      rw [List.countP_cons, List.countP_cons]
      obtain ⟨_, hab⟩ := hab
      rcases hab with hab | ⟨_, hs⟩
      · rw [hab]; omega
      · have h2 : decide (b.2.status = StepStatus.pending) = false := by
          simp [hs]
        rw [h2]
        simp only [Bool.false_eq_true, if_false]
        omega

theorem countP_setEntry_lt {l : List (String × WorkflowStep)} {i : String}
    {st : WorkflowStep} (st' : WorkflowStep)
    (hnd : (l.map Prod.fst).Nodup) (h : List.lookup i l = some st)
    (hp : st.status = .pending) (hs : st'.status ≠ .pending) :
    (l.map (fun kv => if kv.1 = i then (i, st') else kv)).countP
        (fun kv => decide (kv.2.status = .pending)) <
      l.countP (fun kv => decide (kv.2.status = .pending)) := by
  induction l with
  | nil => simp [List.lookup] at h
  | cons kv rest ih =>
      obtain ⟨k1, v1⟩ := kv
      rw [List.map_cons, List.nodup_cons] at hnd
      by_cases hk : k1 = i
      · subst hk
        rw [List.lookup] at h
        simp only [beq_self_eq_true] at h
        cases h
        have hmapid : List.map (fun kv => if kv.1 = k1 then (k1, st') else kv)
            rest = rest := by
          have hnd1 : k1 ∉ List.map Prod.fst rest := hnd.1
          have hfun : ∀ kv ∈ rest,
              (if kv.1 = k1 then ((k1, st') : String × WorkflowStep) else kv)
                = id kv := by
            intro kv hkv
            rw [if_neg, id]
            intro hcon
            have hm : kv.1 ∈ List.map Prod.fst rest :=
              List.mem_map_of_mem Prod.fst hkv
            rw [hcon] at hm
            exact hnd1 hm
          rw [List.map_congr_left hfun, List.map_id]
        rw [List.map_cons]
        have hhead : (if (k1, st).1 = k1 then
            ((k1, st') : String × WorkflowStep) else (k1, st))
            = (k1, st') := if_pos rfl
        rw [hhead, hmapid, List.countP_cons, List.countP_cons]
        have h1 : decide ((((k1, st') : String × WorkflowStep)).2.status
            = StepStatus.pending) = false := by simp [hs]
        have h2 : decide ((((k1, st) : String × WorkflowStep)).2.status
            = StepStatus.pending) = true := by simp [hp]
        simp [h1, h2]
      · rw [List.lookup] at h
        have hb : (i == k1) = false := by
          simp only [beq_eq_false_iff_ne, ne_eq]
          exact fun hh => hk hh.symm
        rw [hb] at h
        simp only [List.map_cons, if_neg hk, List.countP_cons]
        have := ih hnd.2 h
        omega

theorem pendingCount_mono {a b : Workflow}
    (h : List.Forall₂ RMono a.steps b.steps) :
    pendingCount b ≤ pendingCount a :=
  countP_rmono h

theorem keys_eq_of_forall₂ {l₁ l₂ : List (String × WorkflowStep)}
    (h : List.Forall₂ RMono l₁ l₂) :
    l₂.map Prod.fst = l₁.map Prod.fst := by
  induction h with
  | nil => rfl
  | cons hab hrest ih =>
      simp only [List.map_cons, ih, hab.1]

/-- Replacing the pending step at key `i` by a non-pending one strictly
decreases the pending count (duplicate-free keys). -/
theorem pendingCount_setStep_lt {w : Workflow} {i : String}
    {st : WorkflowStep} (st' : WorkflowStep) (hnd : KeysNodup w)
    (h : w.findStep i = some st) (hp : st.status = .pending)
    (hs : st'.status ≠ .pending) :
    pendingCount (w.setStep i st') < pendingCount w :=
  countP_setEntry_lt st' hnd h hp hs

end BoltQ

namespace BoltQ

/-! ## `StepEvol` lemmas -/

theorem stepEvol_refl (a : Workflow) (x : String) : StepEvol a a x :=
  fun _ => Or.inl rfl

theorem stepEvol_not_pending_stable {a b : Workflow} {x t : String}
    {st : WorkflowStep} (h : StepEvol a b x) (hst : a.findStep t = some st)
    (hnp : st.status ≠ .pending) : b.findStep t = a.findStep t := by
  rcases h t with he | ⟨st', d, hst', hp, _, _, _⟩
  · exact he
  · rw [hst] at hst'
    cases hst'
    exact absurd hp hnp

theorem stepEvol_pending_back {a b : Workflow} {x t : String}
    {st : WorkflowStep} (h : StepEvol a b x) (hbt : b.findStep t = some st)
    (hp : st.status = .pending) : a.findStep t = b.findStep t := by
  rcases h t with he | ⟨st', d, hst', hp', hbt', _, _⟩
  · exact he.symm
  · rw [hbt] at hbt'
    cases hbt'
    cases hp

theorem stepEvol_skipped_stable {a b : Workflow} {x t : String}
    {st : WorkflowStep} (h : StepEvol a b x) (hst : a.findStep t = some st)
    (hsk : st.status = .skipped) : b.findStep t = some st := by
  rw [stepEvol_not_pending_stable h hst (by rw [hsk]; intro hc; cases hc)]
  exact hst

theorem newlySkipped_extend {a b c : Workflow} {x : String} {u : String}
    (hab : NewlySkipped a b u) (hbc : StepEvol b c x) :
    NewlySkipped a c u := by
  obtain ⟨hpend, s₁, hb, hsk⟩ := hab
  exact ⟨hpend, s₁, stepEvol_skipped_stable hbc hb hsk, hsk⟩

theorem newlySkipped_pull {b c : Workflow} {x : String} {u : String}
    {a : Workflow} (hab : StepEvol a b x) (h : NewlySkipped b c u) :
    NewlySkipped a c u := by
  obtain ⟨⟨s₀, hb, hp⟩, hsk⟩ := h
  refine ⟨⟨s₀, ?_, hp⟩, hsk⟩
  rw [stepEvol_pending_back hab hb hp]
  exact hb

/-- Composition of cascade evolutions: the middle failed-step name `y`
must itself be the original `x` or a step the composite run newly
skipped. -/
theorem stepEvol_comp {a b c : Workflow} {x y : String}
    (hab : StepEvol a b x) (hbc : StepEvol b c y)
    (hy : y = x ∨ NewlySkipped a c y) : StepEvol a c x := by
  intro t
  rcases hbc t with he | ⟨st, d, hbt, hp, hct, hd, hprov⟩
  · rcases hab t with he' | ⟨st, d, hat, hp, hbt, hd, hprov⟩
    · exact Or.inl (he.trans he')
    · right
      refine ⟨st, d, hat, hp, he ▸ hbt, hd, ?_⟩
      rcases hprov with h | h
      · exact Or.inl h
      · exact Or.inr (newlySkipped_extend h hbc)
  · right
    have hback := stepEvol_pending_back hab hbt hp
    refine ⟨st, d, hback.trans hbt, hp, hct, hd, ?_⟩
    rcases hprov with h | h
    · subst h
      exact hy
    · exact Or.inr (newlySkipped_pull hab h)

theorem notPending_evol {a b : Workflow} {x fid : String}
    (h : NotPendingStep a fid) (hab : StepEvol a b x) :
    NotPendingStep b fid := by
  intro st hb hp
  have hback := stepEvol_pending_back hab hb hp
  exact h st (hback.trans hb) hp

theorem safeAfter_mono {b c : Workflow} {x d t : String}
    (hbc : StepEvol b c x) (h : SafeAfter b d t) : SafeAfter c d t := by
  intro st hc hp
  apply h st _ hp
  rw [stepEvol_pending_back hbc hc hp]
  exact hc

/-! ## `DepSkip` lift lemmas -/

theorem depSkip_lift_evol {a b : Workflow} {x' y t : String}
    (hab : StepEvol a b x') (h : DepSkip b y t) : DepSkip a y t := by
  induction h with
  | base t st hfind hp hd =>
      exact DepSkip.base t st
        ((stepEvol_pending_back hab hfind hp).trans hfind) hp hd
  | tail t st u hfind hp _ hd ih =>
      exact DepSkip.tail t st u
        ((stepEvol_pending_back hab hfind hp).trans hfind) hp ih hd

theorem depSkip_lift_set {a : Workflow} {sid fid t : String}
    {stS : WorkflowStep} {st' : WorkflowStep}
    (hfind : a.findStep sid = some stS) (hp : stS.status = .pending)
    (hd : fid ∈ stS.dependsOn) (hskip : st'.status ≠ .pending)
    (h : DepSkip (a.setStep sid st') sid t) : DepSkip a fid t := by
  induction h with
  | base t st hfindT hpT hmem =>
      have hne : t ≠ sid := by
        intro hcon
        subst hcon
        rw [findStep_setStep_self st' hfind] at hfindT
        cases hfindT
        exact hskip hpT
      rw [findStep_setStep_ne st' hne] at hfindT
      exact DepSkip.tail t st sid hfindT hpT
        (DepSkip.base sid stS hfind hp hd) hmem
  | tail t st u hfindT hpT _ hmem ih =>
      have hne : t ≠ sid := by
        intro hcon
        subst hcon
        rw [findStep_setStep_self st' hfind] at hfindT
        cases hfindT
        exact hskip hpT
      rw [findStep_setStep_ne st' hne] at hfindT
      exact DepSkip.tail t st u hfindT hpT ih hmem

end BoltQ

namespace BoltQ

theorem forall₂_rmono_setEntry {l : List (String × WorkflowStep)}
    {i : String} {st : WorkflowStep} (st' : WorkflowStep)
    (hnd : (l.map Prod.fst).Nodup) (h : List.lookup i l = some st)
    (hp : st.status = .pending) (hs : st'.status = .skipped) :
    List.Forall₂ RMono l (l.map fun kv => if kv.1 = i then (i, st') else kv)
    := by
  induction l with
  | nil => exact List.Forall₂.nil
  | cons kv rest ih =>
      obtain ⟨k1, v1⟩ := kv
      rw [List.map_cons, List.nodup_cons] at hnd
      by_cases hk : k1 = i
      · subst hk
        rw [List.lookup] at h
        simp only [beq_self_eq_true] at h
        cases h
        have hhead : (if ((k1, st) : String × WorkflowStep).1 = k1 then
            ((k1, st') : String × WorkflowStep) else (k1, st)) = (k1, st') :=
          if_pos rfl
        have hmapid : List.map
            (fun kv => if kv.1 = k1 then (k1, st') else kv) rest = rest := by
          have hnd1 : k1 ∉ List.map Prod.fst rest := hnd.1
          have hfun : ∀ kv ∈ rest,
              (if kv.1 = k1 then ((k1, st') : String × WorkflowStep) else kv)
                = id kv := by
            intro kv hkv
            rw [if_neg, id]
            intro hcon
            have hm : kv.1 ∈ List.map Prod.fst rest :=
              List.mem_map_of_mem Prod.fst hkv
            rw [hcon] at hm
            exact hnd1 hm
          rw [List.map_congr_left hfun, List.map_id]
        rw [List.map_cons, hhead, hmapid]
        exact List.Forall₂.cons ⟨rfl, Or.inr ⟨hp, hs⟩⟩ (forall₂_rmono_refl rest)
      · rw [List.lookup] at h
        have hb : (i == k1) = false := by
          simp only [beq_eq_false_iff_ne, ne_eq]
          exact fun hh => hk hh.symm
        rw [hb] at h
        have hhead : (if ((k1, v1) : String × WorkflowStep).1 = i then
            ((i, st') : String × WorkflowStep) else (k1, v1)) = (k1, v1) :=
          if_neg hk
        rw [List.map_cons, hhead]
        exact List.Forall₂.cons (rmono_refl _) (ih hnd.2 h)

theorem setStep_rmono {w : Workflow} {i : String} {st : WorkflowStep}
    (st' : WorkflowStep) (hnd : KeysNodup w) (h : w.findStep i = some st)
    (hp : st.status = .pending) (hs : st'.status = .skipped) :
    List.Forall₂ RMono w.steps (w.setStep i st').steps :=
  forall₂_rmono_setEntry st' hnd h hp hs

theorem setStep_stepEvol {w : Workflow} {sid fid : String}
    {step : WorkflowStep} (h : w.findStep sid = some step)
    (hp : step.status = .pending) (hd : fid ∈ step.dependsOn) :
    StepEvol w (w.setStep sid (skipRecord step fid)) fid := by
  intro t
  by_cases ht : t = sid
  · subst ht
    exact Or.inr ⟨step, fid, h, hp, findStep_setStep_self _ h, hd, Or.inl rfl⟩
  · exact Or.inl (findStep_setStep_ne _ ht)

end BoltQ

namespace BoltQ

/-- The trivial `ScanSpec` of the empty scan. -/
theorem scanSpec_refl (w : Workflow) (fid : String) :
    ScanSpec w w fid [] := by
  refine ⟨rfl, rfl, rfl, rfl, rfl, rfl, rfl, forall₂_rmono_refl w.steps,
    stepEvol_refl w fid, ?_, ?_, ?_⟩
  · intro t hne
    exact absurd rfl hne
  · intro t ht
    cases ht
  · intro u hns
    obtain ⟨⟨s₀, h0, hp⟩, s₁, h1, hsk⟩ := hns
    rw [h0] at h1
    cases h1
    rw [hp] at hsk
    cases hsk

/-- Degenerate cascade: with no pending step at all, the spec holds of the
unchanged workflow over any scan list. -/
theorem scanSpec_of_no_pending (w : Workflow) (fid : String)
    (l : List String) (h0 : pendingCount w = 0) : ScanSpec w w fid l := by
  have hnopending : ∀ (t : String) (st : WorkflowStep),
      w.findStep t = some st → st.status ≠ .pending := by
    intro t st hfind hp
    have := pendingCount_pos hfind hp
    omega
  refine ⟨rfl, rfl, rfl, rfl, rfl, rfl, rfl, forall₂_rmono_refl w.steps,
    stepEvol_refl w fid, ?_, ?_, ?_⟩
  · intro t hne
    exact absurd rfl hne
  · intro t _ st hfind hp
    exact absurd hp (hnopending t st hfind)
  · intro u hns
    obtain ⟨⟨s₀, h0u, hpu⟩, _⟩ := hns
    exact absurd hpu (hnopending u s₀ h0u)


end BoltQ

namespace BoltQ

/-- Master lemma for the `StepOrder` scan, assuming the nested cascade
satisfies its spec at the smaller fuel. -/
theorem skipScan_spec (fuel : Nat)
    (Hcas : ∀ (w' : Workflow) (fid' : String), KeysNodup w' →
      pendingCount w' ≤ fuel → NotPendingStep w' fid' →
      CascadeSpec w' (skipDepsFuel fuel w' fid') fid') :
    ∀ (l : List String) (w : Workflow) (fid : String), KeysNodup w →
      pendingCount w ≤ fuel + 1 → NotPendingStep w fid →
      ScanSpec w (skipScan (skipDepsFuel fuel) w fid l) fid l := by
  intro l
  induction l with
  | nil =>
      intro w fid _ _ _
      exact scanSpec_refl w fid
  | cons sid rest ih =>
      intro w fid hnd hfc hnp
      cases hf : w.findStep sid with
      | none =>
          simp only [skipScan, hf]
          have IH := ih w fid hnd hfc hnp
          refine ⟨IH.order, IH.wstatus, IH.wid, IH.wname, IH.wcreated,
            IH.wstarted, IH.wfinished, IH.mono, IH.evol, IH.sound, ?_,
            IH.cascade⟩
          intro t ht
          rcases List.mem_cons.mp ht with rfl | ht
          · intro st hrt _
            rcases IH.evol t with he | ⟨st', d, hfind', _, _, _, _⟩
            · rw [he, hf] at hrt
              cases hrt
            · rw [hf] at hfind'
              cases hfind'
          · exact IH.scanned t ht
      | some step =>
          by_cases hg : step.status = .pending ∧ fid ∈ step.dependsOn
          · simp only [skipScan, hf, if_pos hg]
            obtain ⟨hp, hd⟩ := hg
            have hsknp : (skipRecord step fid).status ≠ .pending := by
              intro hc
              cases hc
            have hlt : pendingCount (w.setStep sid (skipRecord step fid))
                < pendingCount w :=
              pendingCount_setStep_lt _ hnd hf hp hsknp
            have hnd₁ : KeysNodup (w.setStep sid (skipRecord step fid)) := by
              unfold KeysNodup
              rw [keys_setStep]
              exact hnd
            have hfc₁ : pendingCount (w.setStep sid (skipRecord step fid))
                ≤ fuel := by omega
            have hnp₁ : NotPendingStep (w.setStep sid (skipRecord step fid))
                sid := by
              intro st h1 hps
              rw [findStep_setStep_self _ hf] at h1
              cases h1
              cases hps
            have HC₁ := Hcas _ sid hnd₁ hfc₁ hnp₁
            have hab : StepEvol w (w.setStep sid (skipRecord step fid)) fid :=
              setStep_stepEvol hf hp hd
            have hw1skip : (w.setStep sid (skipRecord step fid)).findStep sid
                = some (skipRecord step fid) :=
              findStep_setStep_self _ hf
            have hns_sid : NewlySkipped w
                (skipDepsFuel fuel (w.setStep sid (skipRecord step fid)) sid)
                sid :=
              ⟨⟨step, hf, hp⟩, _,
                stepEvol_skipped_stable HC₁.evol hw1skip rfl, rfl⟩
            have hA2 : StepEvol w
                (skipDepsFuel fuel (w.setStep sid (skipRecord step fid)) sid)
                fid :=
              stepEvol_comp hab HC₁.evol (Or.inr hns_sid)
            have hnd₂ : KeysNodup
                (skipDepsFuel fuel (w.setStep sid (skipRecord step fid)) sid)
                := by
              unfold KeysNodup
              rw [keys_eq_of_forall₂ HC₁.mono]
              exact hnd₁
            have hfc₂ : pendingCount
                (skipDepsFuel fuel (w.setStep sid (skipRecord step fid)) sid)
                ≤ fuel + 1 := by
              have := pendingCount_mono HC₁.mono
              omega
            have hnp₂ : NotPendingStep
                (skipDepsFuel fuel (w.setStep sid (skipRecord step fid)) sid)
                fid :=
              notPending_evol (notPending_evol hnp hab) HC₁.evol
            have IH₂ := ih _ fid hnd₂ hfc₂ hnp₂
            have horder₂ :
                (skipDepsFuel fuel (w.setStep sid (skipRecord step fid))
                  sid).stepOrder = w.stepOrder := HC₁.order
            refine ⟨IH₂.order.trans horder₂,
              IH₂.wstatus.trans HC₁.wstatus,
              IH₂.wid.trans HC₁.wid,
              IH₂.wname.trans HC₁.wname,
              IH₂.wcreated.trans HC₁.wcreated,
              IH₂.wstarted.trans HC₁.wstarted,
              IH₂.wfinished.trans HC₁.wfinished,
              forall₂_rmono_trans
                (forall₂_rmono_trans (setStep_rmono _ hnd hf hp rfl) HC₁.mono)
                IH₂.mono,
              stepEvol_comp hA2 IH₂.evol (Or.inl rfl), ?_, ?_, ?_⟩
            · intro t hne
              by_cases h2 : (skipScan (skipDepsFuel fuel)
                  (skipDepsFuel fuel (w.setStep sid (skipRecord step fid))
                    sid) fid rest).findStep t
                  = (skipDepsFuel fuel (w.setStep sid (skipRecord step fid))
                    sid).findStep t
              · by_cases h1 : (skipDepsFuel fuel
                    (w.setStep sid (skipRecord step fid)) sid).findStep t
                    = (w.setStep sid (skipRecord step fid)).findStep t
                · by_cases hts : t = sid
                  · subst hts
                    exact DepSkip.base t step hf hp hd
                  · exact absurd (h2.trans (h1.trans
                      (findStep_setStep_ne _ hts))) hne
                · exact depSkip_lift_set hf hp hd hsknp (HC₁.sound t h1)
              · exact depSkip_lift_evol hA2 (IH₂.sound t h2)
            · intro t ht
              rcases List.mem_cons.mp ht with rfl | ht
              · intro st hrt hpt
                have hr : (skipScan (skipDepsFuel fuel)
                    (skipDepsFuel fuel (w.setStep t (skipRecord step fid)) t)
                    fid rest).findStep t = some (skipRecord step fid) :=
                  stepEvol_skipped_stable IH₂.evol
                    (stepEvol_skipped_stable HC₁.evol hw1skip rfl) rfl
                rw [hr] at hrt
                cases hrt
                cases hpt
              · exact IH₂.scanned t ht
            · intro u hnsu t ht
              by_cases hus : u = sid
              · subst hus
                exact safeAfter_mono IH₂.evol (HC₁.scanned t ht)
              · obtain ⟨⟨s₀, hwu, hpu⟩, s₁, hru, hsku⟩ := hnsu
                have hw1u : (w.setStep sid (skipRecord step fid)).findStep u
                    = some s₀ := by
                  rw [findStep_setStep_ne _ hus]
                  exact hwu
                rcases HC₁.evol u with heq | hch
                · have hns₂ : NewlySkipped
                      (skipDepsFuel fuel
                        (w.setStep sid (skipRecord step fid)) sid)
                      (skipScan (skipDepsFuel fuel)
                        (skipDepsFuel fuel
                          (w.setStep sid (skipRecord step fid)) sid) fid rest)
                      u :=
                    ⟨⟨s₀, heq.trans hw1u, hpu⟩, s₁, hru, hsku⟩
                  apply IH₂.cascade u hns₂ t
                  rw [horder₂]
                  exact ht
                · obtain ⟨st', d, hw1u', hp', hw2u, _, _⟩ := hch
                  have hns₁ : NewlySkipped
                      (w.setStep sid (skipRecord step fid))
                      (skipDepsFuel fuel
                        (w.setStep sid (skipRecord step fid)) sid) u :=
                    ⟨⟨st', hw1u', hp'⟩, _, hw2u, rfl⟩
                  exact safeAfter_mono IH₂.evol (HC₁.cascade u hns₁ t ht)
          · simp only [skipScan, hf, if_neg hg]
            have IH := ih w fid hnd hfc hnp
            refine ⟨IH.order, IH.wstatus, IH.wid, IH.wname, IH.wcreated,
              IH.wstarted, IH.wfinished, IH.mono, IH.evol, IH.sound, ?_,
              IH.cascade⟩
            intro t ht
            rcases List.mem_cons.mp ht with rfl | ht
            · intro st hrt hpt
              rcases IH.evol t with he | ⟨st', d, hfind', _, hch, _, _⟩
              · rw [he, hf] at hrt
                cases hrt
                intro hdep
                exact hg ⟨hpt, hdep⟩
              · rw [hf] at hfind'
                cases hfind'
                rw [hch] at hrt
                cases hrt
                cases hpt
            · exact IH.scanned t ht

end BoltQ

namespace BoltQ

/-- The fueled cascade satisfies the full spec whenever the fuel covers the
number of pending steps. -/
theorem skipDepsFuel_spec :
    ∀ (fuel : Nat) (w : Workflow) (fid : String), KeysNodup w →
      pendingCount w ≤ fuel → NotPendingStep w fid →
      CascadeSpec w (skipDepsFuel fuel w fid) fid := by
  intro fuel
  induction fuel with
  | zero =>
      intro w fid _ hfc _
      exact scanSpec_of_no_pending w fid w.stepOrder (by omega)
  | succ fuel ihf =>
      intro w fid hnd hfc hnp
      exact skipScan_spec fuel (fun w' fid' => ihf w' fid') w.stepOrder w
        fid hnd hfc hnp

/-- The `skipDependentSteps` satisfies the cascade spec for any workflow with
duplicate-free keys and a non-pending failed step. -/
theorem skipDependentSteps_spec {w : Workflow} {fid : String}
    (hnd : KeysNodup w) (hnp : NotPendingStep w fid) :
    CascadeSpec w (skipDependentSteps w fid) fid := by
  apply skipDepsFuel_spec (w.steps.length + 1) w fid hnd _ hnp
  have : pendingCount w ≤ w.steps.length := List.countP_le_length _
  omega

/-! ## Transfer lemmas between the pre-failure and post-failure workflow -/

theorem depSkip_transfer_back {a b : Workflow} {x t : String}
    (hxa : NotPendingStep a x)
    (heq : ∀ u, u ≠ x → a.findStep u = b.findStep u)
    (h : DepSkip a x t) : DepSkip b x t := by
  induction h with
  | base t st hfind hp hd =>
      have hne : t ≠ x := by
        intro hc
        subst hc
        exact hxa st hfind hp
      rw [heq t hne] at hfind
      exact DepSkip.base t st hfind hp hd
  | tail t st u hfind hp _ hd ih =>
      have hne : t ≠ x := by
        intro hc
        subst hc
        exact hxa st hfind hp
      rw [heq t hne] at hfind
      exact DepSkip.tail t st u hfind hp ih hd

theorem depSkip_transfer_to {a b : Workflow} {x t : String}
    (heq : ∀ u, u ≠ x → a.findStep u = b.findStep u)
    (h : DepSkip a x t) (hne : t ≠ x) : DepSkip b x t := by
  induction h with
  | base t st hfind hp hd =>
      rw [heq t hne] at hfind
      exact DepSkip.base t st hfind hp hd
  | tail t st u hfind hp hu hd ih =>
      rw [heq t hne] at hfind
      by_cases hux : u = x
      · subst hux
        exact DepSkip.base t st hfind hp hd
      · exact DepSkip.tail t st u hfind hp (ih hux) hd

end BoltQ

namespace BoltQ

/-- Reduction of the failed branch of `UpdateStepStatus`. -/
theorem updateStepStatus_failed_eq (w : Workflow) (X : String)
    (stX : WorkflowStep) (errMsg : String)
    (result : Option (List (String × String))) (now : Int)
    (hx : w.findStep X = some stX) :
    updateStepStatus w X .failed errMsg result now =
      .ok (skipDependentSteps (failWorkflow w X stX errMsg now) X) := by
  simp only [updateStepStatus, hx]
  rfl

theorem failWorkflow_findStep_self {w : Workflow} {X : String}
    {stX : WorkflowStep} (errMsg : String) (now : Int)
    (hx : w.findStep X = some stX) :
    (failWorkflow w X stX errMsg now).findStep X
      = some (failedRecord stX errMsg now) :=
  findStep_setStep_self _ (findStep_setStep_self (failedMark stX) hx)

theorem failWorkflow_findStep_ne {w : Workflow} {X : String}
    {stX : WorkflowStep} (errMsg : String) (now : Int) {u : String}
    (hu : u ≠ X) :
    (failWorkflow w X stX errMsg now).findStep u = w.findStep u := by
  show ((w.setStep X (failedMark stX)).setStep X
    (failedRecord stX errMsg now)).findStep u = w.findStep u
  rw [findStep_setStep_ne _ hu, findStep_setStep_ne _ hu]

theorem failWorkflow_keysNodup {w : Workflow} {X : String}
    {stX : WorkflowStep} (errMsg : String) (now : Int)
    (hnd : KeysNodup w) : KeysNodup (failWorkflow w X stX errMsg now) := by
  unfold KeysNodup
  show ((((w.setStep X (failedMark stX)).setStep X
    (failedRecord stX errMsg now)).steps).map Prod.fst).Nodup
  rw [keys_setStep, keys_setStep]
  exact hnd

/-- What the cascade does to the workflow, phrased against the pre-update
workflow `w`: the failed step keeps its record, steps outside the
pending-dependency closure of `X` are untouched, and every step in the
closure is skipped with a message naming a direct dependency that failed
or was skipped. -/
theorem cascade_consequences {w wC r : Workflow} {X : String}
    {st₂ : WorkflowStep}
    (hCX : wC.findStep X = some st₂) (hnp2 : st₂.status ≠ .pending)
    (heqX : ∀ u, u ≠ X → wC.findStep u = w.findStep u)
    (horder : wC.stepOrder = w.stepOrder)
    (hcov : OrderCovers w)
    (SPEC : CascadeSpec wC r X) :
    r.findStep X = some st₂ ∧
    (∀ t, t ≠ X → ¬ DepSkip w X t → r.findStep t = w.findStep t) ∧
    (∀ t, t ≠ X → DepSkip w X t →
      ∃ st d, w.findStep t = some st ∧ st.status = .pending ∧
        r.findStep t = some (skipRecord st d) ∧ d ∈ st.dependsOn ∧
        (d = X ∨ DepSkip w X d)) := by
  have hnpC : NotPendingStep wC X := by
    intro st h1 hp
    rw [hCX] at h1
    cases h1
    exact hnp2 hp
  have hRX : r.findStep X = some st₂ := by
    rw [stepEvol_not_pending_stable SPEC.evol hCX hnp2]
    exact hCX
  have hmemC : ∀ u st', wC.findStep u = some st' → st'.status = .pending →
      u ∈ wC.stepOrder := by
    intro u st' hfind hp
    have hu : u ≠ X := by
      intro hc
      subst hc
      rw [hCX] at hfind
      cases hfind
      exact hnp2 hp
    rw [heqX u hu] at hfind
    rw [horder]
    exact hcov u st' hfind
  have hcompl : ∀ u, DepSkip wC X u → NewlySkipped wC r u := by
    intro u h
    induction h with
    | base u st hfind hp hd =>
        have hsafe := SPEC.scanned u (hmemC u st hfind hp)
        rcases SPEC.evol u with he | ⟨st', d, hfind', hp', hch, hd', _⟩
        · exact absurd hd (hsafe st (he.trans hfind) hp)
        · exact ⟨⟨st, hfind, hp⟩, _, hch, rfl⟩
    | tail t st u hfind hp hu hd ih =>
        have hsafe := SPEC.cascade u ih t (hmemC t st hfind hp)
        rcases SPEC.evol t with he | ⟨st', d, hfind', hp', hch, hd', _⟩
        · exact absurd hd (hsafe st (he.trans hfind) hp)
        · exact ⟨⟨st, hfind, hp⟩, _, hch, rfl⟩
  refine ⟨hRX, ?_, ?_⟩
  · intro t htX hnds
    by_cases h2 : r.findStep t = wC.findStep t
    · rw [h2]
      exact heqX t htX
    · exact absurd (depSkip_transfer_back hnpC heqX (SPEC.sound t h2)) hnds
  · intro t htX hds
    have hdsC : DepSkip wC X t :=
      depSkip_transfer_to (fun u hu => (heqX u hu).symm) hds htX
    obtain ⟨⟨s₀, hC0, hp0⟩, s₁, hr1, hsk1⟩ := hcompl t hdsC
    have hne2 : r.findStep t ≠ wC.findStep t := by
      intro hcon
      rw [hcon, hC0] at hr1
      cases hr1
      rw [hp0] at hsk1
      cases hsk1
    rcases SPEC.evol t with he | ⟨st', d, hfind', hp', hch, hd', hprov⟩
    · exact absurd he hne2
    · refine ⟨st', d, ?_, hp', hch, hd', ?_⟩
      · rw [← heqX t htX]
        exact hfind'
      · rcases hprov with h | hnsd
        · exact Or.inl h
        · right
          obtain ⟨⟨sd0, hCd, hpd⟩, sd1, hrd, hskd⟩ := hnsd
          have hned : r.findStep d ≠ wC.findStep d := by
            intro hcon
            rw [hcon, hCd] at hrd
            cases hrd
            rw [hpd] at hskd
            cases hskd
          exact depSkip_transfer_back hnpC heqX (SPEC.sound d hned)

end BoltQ

namespace BoltQ

/-! ## Claim C9 (amended) -/

/-- C9 amended: when a workflow step `X` is marked `failed`
(duplicate-free step keys, `StepOrder` covering the map), the workflow
status becomes `failed` with `FinishedAt` stamped; the failed step's record
carries status `failed`, the error message, and `CompletedAt`; every step
that does **not** transitively depend on `X` through pending steps is
untouched; and every pending step that does is marked `skipped` with error
message `"Skipped because dependency D failed"` where `D` is one of its own
direct dependencies — the failed step itself or a step skipped in the same
cascade — not necessarily the originally failed step. -/
theorem updateStepStatus_failed_skips_dependents (w : Workflow) (X : String)
    (stX : WorkflowStep) (errMsg : String)
    (result : Option (List (String × String))) (now : Int)
    (hx : w.findStep X = some stX) (hnd : KeysNodup w)
    (hcov : OrderCovers w) :
    ∃ w', updateStepStatus w X .failed errMsg result now = .ok w' ∧
      w'.status = .failed ∧
      w'.finishedAt = some now ∧
      w'.stepOrder = w.stepOrder ∧
      w'.findStep X = some (failedRecord stX errMsg now) ∧
      (∀ t, t ≠ X → ¬ DepSkip w X t → w'.findStep t = w.findStep t) ∧
      (∀ t, t ≠ X → DepSkip w X t →
        ∃ st d, w.findStep t = some st ∧ st.status = .pending ∧
          w'.findStep t = some (skipRecord st d) ∧ d ∈ st.dependsOn ∧
          (d = X ∨ DepSkip w X d)) := by
  have hCX := failWorkflow_findStep_self errMsg now hx
  have hnp2 : (failedRecord stX errMsg now).status ≠ .pending := by
    intro hc
    cases hc
  have heqX : ∀ u, u ≠ X →
      (failWorkflow w X stX errMsg now).findStep u = w.findStep u :=
    fun u hu => failWorkflow_findStep_ne errMsg now hu
  have hndC := @failWorkflow_keysNodup w X stX errMsg now hnd
  have hnpC : NotPendingStep (failWorkflow w X stX errMsg now) X := by
    intro st h1 hp
    rw [hCX] at h1
    cases h1
    cases hp
  have SPEC := skipDependentSteps_spec hndC hnpC
  have CONS := cascade_consequences hCX hnp2 heqX rfl hcov SPEC
  exact ⟨_, updateStepStatus_failed_eq w X stX errMsg result now hx,
    SPEC.wstatus, SPEC.wfinished, SPEC.order, CONS.1, CONS.2.1, CONS.2.2⟩

/-- Witness for `updateStepStatus_failed_skips_dependents`: the chain
fixture `a ← b ← c` with `a` failing. -/
theorem updateStepStatus_failed_skips_dependents_witness :
    chainWorkflow.findStep "a" = some (mkStep "a" []) ∧
    KeysNodup chainWorkflow ∧
    OrderCovers chainWorkflow ∧
    (∃ w', updateStepStatus chainWorkflow "a" .failed "boom" none 5
        = .ok w' ∧
      w'.status = .failed ∧
      w'.finishedAt = some 5 ∧
      w'.stepOrder = chainWorkflow.stepOrder ∧
      w'.findStep "a" = some (failedRecord (mkStep "a" []) "boom" 5) ∧
      (∀ t, t ≠ "a" → ¬ DepSkip chainWorkflow "a" t →
        w'.findStep t = chainWorkflow.findStep t) ∧
      (∀ t, t ≠ "a" → DepSkip chainWorkflow "a" t →
        ∃ st d, chainWorkflow.findStep t = some st ∧
          st.status = .pending ∧
          w'.findStep t = some (skipRecord st d) ∧ d ∈ st.dependsOn ∧
          (d = "a" ∨ DepSkip chainWorkflow "a" d))) := by
  have hcov : OrderCovers chainWorkflow := by
    intro t st h
    have hm := List.mem_map_of_mem Prod.fst (lookup_mem h)
    have hkeys : List.map Prod.fst chainWorkflow.steps
        = chainWorkflow.stepOrder := by decide
    rw [hkeys] at hm
    exact hm
  have hnd : KeysNodup chainWorkflow := by
    show (List.map Prod.fst chainWorkflow.steps).Nodup
    decide
  exact ⟨by decide, hnd, hcov,
    updateStepStatus_failed_skips_dependents chainWorkflow "a"
      (mkStep "a" []) "boom" none 5 (by decide) hnd hcov⟩

end BoltQ
